import Mathlib

/-!
Verification development for the mpmc circular buffer
(src/src/sync/mpmc_circular_buffer.rs).

The buffer, the reader cursor and all of their operations are translated
from the Rust source.  The per-cell synchronization primitive
(ReadReleaseLock of rr_lock) and the reference counter (ref_count) are not
part of the sources; they are modelled from the specification, sections 4.1
and 4.2 (see the doc comments below).

The embedding is sequential: every operation is an atomic state
transformer.  The spin loops of the source (head_lock acquisition, the
snapshot-recheck loops of new_reader and clone, the index compare-and-swap
of advance) can only retry under interference from another thread; in the
sequential embedding the rechecked quantity cannot change between the two
loads, so each loop runs exactly once and is translated straight-line,
except the compare-and-swap of advance whose failure case is kept
explicitly (it is a fatal invariant violation in the source).  Operations
that can panic in the source (expect_dead in release, unwrap in advance,
the NotLocked panic in try_read) return Option; none models the panic.
-/

namespace Postage

/-- Result of decrementing a reference count (spec section 4.1): dead exactly
when the count transitions to zero. -/
inductive TryDecrement where
  | alive
  | dead
deriving DecidableEq, Repr

/-- Modelled from the spec: the per-cell synchronization primitive
(ReadReleaseLock of rr_lock together with its ref_count counter) is not under
src/.  Following spec sections 3 and 4.2: a slot holds an optional value, a
reference count (cursors positioned on it, including pre-reservations), and
wake registrations.  The content states of the spec are derived: Empty means
value = none, Filled means value present, Dead means value present with
refCount = 0 (the lifecycle only enters Dead from Filled when all holders
have decremented to zero).  The wake lists are abstracted to a single flag
recording that a write subscription has been registered. -/
structure Slot (α : Type) where
  value : Option α
  refCount : Nat
  subscribed : Bool
deriving DecidableEq, Repr

/-- Modelled from the spec (4.2): acquire increments the refcount
unconditionally. -/
def Slot.acquire {α : Type} (s : Slot α) : Slot α :=
  { s with refCount := s.refCount + 1 }

/-- Modelled from the spec (4.2): acquire_next pre-reserves a slot that has
not been written yet; per spec section 9 it manipulates the same counter as
acquire. -/
def Slot.acquire_next {α : Type} (s : Slot α) : Slot α :=
  { s with refCount := s.refCount + 1 }

/-- Modelled from the spec (4.1, 4.2): decrement lowers the refcount and
reports dead exactly when the count transitions to zero. -/
def Slot.decrement {α : Type} (s : Slot α) : Slot α × TryDecrement :=
  ({ s with refCount := s.refCount - 1 },
   if s.refCount - 1 = 0 then TryDecrement.dead else TryDecrement.alive)

/-- Modelled from the spec (4.2): symmetric undo for a pre-reservation made
by acquire_next. -/
def Slot.decrement_next {α : Type} (s : Slot α) : Slot α :=
  { s with refCount := s.refCount - 1 }

/-- Modelled from the spec (4.2): registers interest in the next write to
this slot; re-subscription replaces the previous registration. -/
def Slot.subscribe_write {α : Type} (s : Slot α) : Slot α :=
  { s with subscribed := true }

/-- Modelled from the spec (4.2): a slot-level write succeeds only if the
slot is currently Empty; if Filled or Dead the value is handed back
unconsumed (none here, the buffer level returns Pending with the value). -/
def Slot.try_write {α : Type} (s : Slot α) (v : α) : Option (Slot α) :=
  match s.value with
  | none => some { s with value := some v }
  | some _ => none

/-- Result of a slot-level read attempt (spec section 4.2). -/
inductive SlotTryRead (α : Type) where
  | Read (value : α)
  | Pending
  | NotLocked
deriving DecidableEq, Repr

/-- Modelled from the spec (4.2): returns a copy of the stored value if
Filled; Pending if the awaited value is not there yet; NotLocked if the
reading cursor never legitimately acquired the slot (refcount zero). -/
def Slot.try_read {α : Type} (s : Slot α) : SlotTryRead α :=
  if s.refCount = 0 then SlotTryRead.NotLocked
  else
    match s.value with
    | some v => SlotTryRead.Read v
    | none => SlotTryRead.Pending

/-- Modelled from the spec (4.2): physically resets a Dead slot to Empty,
clearing the value; the only valid transition source is Dead (value present,
refcount zero), anything else is a fatal expect_dead failure (none). -/
def Slot.release {α : Type} (s : Slot α) : Option (Slot α) :=
  match s.value with
  | some _ => if s.refCount = 0 then some { s with value := none } else none
  | none => none

/-- The circular buffer of the source: a boxed slice of slots (embedded as
its lookup function together with its length; indices at and above len are
never accessed), the write-admission spinlock, and the head and tail
cursors. -/
structure MpmcCircularBuffer (α : Type) where
  slots : Nat → Slot α
  len : Nat
  head_lock : Bool
  head : Nat
  tail : Nat

/-- Source get_slot: physical slot = logical index mod capacity. -/
def MpmcCircularBuffer.get_slot {α : Type} (b : MpmcCircularBuffer α) (id : Nat) : Slot α :=
  b.slots (id % b.len)

/-- Mutation of the slot addressed by a logical index (the source mutates
the slice cell in place through the reference returned by get_slot). -/
def MpmcCircularBuffer.set_slot {α : Type} (b : MpmcCircularBuffer α) (id : Nat)
    (s : Slot α) : MpmcCircularBuffer α :=
  { b with slots := fun j => if j = id % b.len then s else b.slots j }

/-- Reader cursor state machine of the source. -/
inductive ReaderState where
  | Reading
  | Blocked
deriving DecidableEq, Repr

/-- Reader cursor of the source: a logical index and a state. -/
structure BufferReader where
  index : Nat
  state : ReaderState
deriving DecidableEq, Repr

/-- Source MpmcCircularBuffer::new: capacity clamped to at least 2, all
slots start empty, head = tail = 0, and the returned initial reader at
index 0 pre-acquires slot 0. -/
def MpmcCircularBuffer.new (α : Type) (capacity : Nat) :
    MpmcCircularBuffer α × BufferReader :=
  let capacity := max 2 capacity
  let this : MpmcCircularBuffer α :=
    { slots := fun _ => { value := none, refCount := 0, subscribed := false }
      len := capacity
      head_lock := false
      head := 0
      tail := 0 }
  let this := this.set_slot 0 ((this.get_slot 0).acquire)
  (this, { index := 0, state := ReaderState.Reading })

/-- Result of a buffer-level write attempt (source enum TryWrite). -/
inductive TryWrite (α : Type) where
  | Pending (value : α)
  | Ready
deriving DecidableEq, Repr

/-- Source MpmcCircularBuffer::try_write: spin-acquire the admission lock
(immediate in the sequential embedding), read head, attempt the slot write
at head; on success the callback stores head + 1 and releases the lock; on
Pending the lock is released and the value handed back. -/
def MpmcCircularBuffer.try_write {α : Type} (b : MpmcCircularBuffer α) (value : α) :
    TryWrite α × MpmcCircularBuffer α :=
  let b := { b with head_lock := true }
  let head_id := b.head
  let next_id := head_id + 1
  match (b.get_slot head_id).try_write value with
  | some s =>
      let b := b.set_slot head_id s
      let b := { b with head := next_id, head_lock := false }
      (TryWrite.Ready, b)
  | none =>
      let b := { b with head_lock := false }
      (TryWrite.Pending value, b)

/-- Source MpmcCircularBuffer::new_reader: snapshot head, acquire that slot,
re-check that head is unchanged.  Sequentially head cannot move between the
two loads, so the retry loop of the source runs exactly once. -/
def MpmcCircularBuffer.new_reader {α : Type} (b : MpmcCircularBuffer α) :
    MpmcCircularBuffer α × BufferReader :=
  let index := b.head
  let b := b.set_slot index ((b.get_slot index).acquire)
  (b, { index := index, state := ReaderState.Reading })

/-- Result of a reader-level read attempt (source enum TryRead). -/
inductive TryRead (α : Type) where
  | Ready (value : α)
  | Pending
deriving DecidableEq, Repr

/-- Source BufferReader::advance: under the admission lock compare the next
index against head; if the next value has not been produced, pre-reserve it
with acquire_next, mark the cursor Blocked and register a wake subscription;
otherwise reserve it with a normal acquire.  Then compare-and-swap the
cursor index forward; failure of the swap (the stored index differs from
the id being advanced from) is the fatal unwrap of the source, modelled as
none. -/
def BufferReader.advance {α : Type} (r : BufferReader) (id : Nat)
    (b : MpmcCircularBuffer α) : Option (MpmcCircularBuffer α × BufferReader) :=
  let next_id := id + 1
  let b1 := { b with head_lock := true }
  let head_id := b1.head
  let step :=
    if head_id ≤ next_id then
      let bA := b1.set_slot next_id ((b1.get_slot next_id).acquire_next)
      let bA := { bA with head_lock := false }
      let rA := { r with state := ReaderState.Blocked }
      let bA := bA.set_slot id ((bA.get_slot id).subscribe_write)
      (bA, rA)
    else
      let bB := b1.set_slot next_id ((b1.get_slot next_id).acquire)
      let bB := { bB with head_lock := false }
      (bB, r)
  if step.2.index = id then some (step.1, { step.2 with index := next_id }) else none

/-- Source BufferReader::release: decrement the refcount of the slot the
cursor just left; if Alive nothing further happens; if Dead and the index
equals the current tail, physically release the slot (expect_dead, fatal if
the slot is not Dead, modelled as none) and advance tail by one; otherwise
leave the slot as it is. -/
def BufferReader.release {α : Type} (_r : BufferReader) (id : Nat)
    (b : MpmcCircularBuffer α) : Option (MpmcCircularBuffer α) :=
  let slot := b.get_slot id
  let step := slot.decrement
  let b1 := b.set_slot id step.1
  match step.2 with
  | TryDecrement.alive => some b1
  | TryDecrement.dead =>
      let tail := b1.tail
      if id = tail then
        match (step.1).release with
        | some s => some { b1.set_slot id s with tail := tail + 1 }
        | none => none
      else
        some b1

/-- Body of BufferReader::try_read after the blocked-state check: read the
slot at the cursor index; on Read advance then release and return Ready; on
slot Pending return Pending; NotLocked is the fatal panic of the source
(none). -/
def BufferReader.try_read_at {α : Type} (r : BufferReader) (b : MpmcCircularBuffer α) :
    Option (TryRead α × MpmcCircularBuffer α × BufferReader) :=
  let index := r.index
  let slot := b.get_slot index
  match slot.try_read with
  | SlotTryRead.NotLocked => none
  | SlotTryRead.Read value =>
      match r.advance index b with
      | none => none
      | some (b1, r1) =>
          match r1.release index b1 with
          | none => none
          | some b2 => some (TryRead.Ready value, b2, r1)
  | SlotTryRead.Pending => some (TryRead.Pending, b, r)

/-- Source BufferReader::try_read: a Blocked cursor first re-checks whether
head has advanced past its index; if not it re-subscribes and stays
Pending; if so it transitions to Reading and proceeds with the common read
path. -/
def BufferReader.try_read {α : Type} (r : BufferReader) (b : MpmcCircularBuffer α) :
    Option (TryRead α × MpmcCircularBuffer α × BufferReader) :=
  match r.state with
  | ReaderState.Blocked =>
      let index := r.index
      let head := b.head
      if head ≤ index then
        let b1 := b.set_slot index ((b.get_slot index).subscribe_write)
        some (TryRead.Pending, b1, r)
      else
        ({ r with state := ReaderState.Reading }).try_read_at b
  | ReaderState.Reading => r.try_read_at b

/-- Source BufferReader::clone: snapshot the index, acquire that slot,
verify the index is unchanged (immediate in the sequential embedding) and
return an independent cursor at the same position inheriting the state. -/
def BufferReader.clone {α : Type} (r : BufferReader) (b : MpmcCircularBuffer α) :
    MpmcCircularBuffer α × BufferReader :=
  let index := r.index
  let b1 := b.set_slot index ((b.get_slot index).acquire)
  (b1, { index := index, state := r.state })

/-- Source BufferReader::drop: a Blocked cursor undoes its pre-reservation
with decrement_next; a Reading cursor performs the normal release on its
current slot. -/
def BufferReader.drop {α : Type} (r : BufferReader) (b : MpmcCircularBuffer α) :
    Option (MpmcCircularBuffer α) :=
  match r.state with
  | ReaderState.Blocked =>
      some (b.set_slot r.index ((b.get_slot r.index).decrement_next))
  | ReaderState.Reading =>
      r.release r.index b

/-- Release protocol written from the words of the specification (claim C3),
to be compared with BufferReader.release: the refcount of the slot the
cursor just left is decremented; if the result is Alive nothing else
changes; if the result is Dead and the logical index equals the current
tail, the slot is physically released (reset to Empty) and tail advances by
exactly one (impossible, hence fatal, if the slot holds no value); if the
result is Dead and the index differs from tail, the slot remains Dead and
nothing else changes. -/
def releaseSpec {α : Type} (id : Nat) (b : MpmcCircularBuffer α) :
    Option (MpmcCircularBuffer α) :=
  let s := b.get_slot id
  let s1 : Slot α := { s with refCount := s.refCount - 1 }
  if s.refCount - 1 = 0 then
    if id = b.tail then
      match s1.value with
      | some _ => some { b.set_slot id { s1 with value := none } with tail := b.tail + 1 }
      | none => none
    else
      some (b.set_slot id s1)
  else
    some (b.set_slot id s1)

/-!
Driver definitions for the testable scenarios of the spec (section 8): these
iterate the operations above, they introduce no behaviour of their own.
-/

/-- Iterate try_write over a list of values, collecting the outcomes. -/
def writeAll {α : Type} (b : MpmcCircularBuffer α) :
    List α → List (TryWrite α) × MpmcCircularBuffer α
  | [] => ([], b)
  | v :: vs =>
      let step := b.try_write v
      let rest := writeAll step.2 vs
      (step.1 :: rest.1, rest.2)

/-- Perform n read attempts that are all expected to deliver a value,
collecting the values; a Pending outcome or a panic aborts (none). -/
def readN {α : Type} : Nat → MpmcCircularBuffer α → BufferReader →
    Option (List α × MpmcCircularBuffer α × BufferReader)
  | 0, b, r => some ([], b, r)
  | n + 1, b, r =>
      match r.try_read b with
      | some (TryRead.Ready v, b1, r1) =>
          match readN n b1 r1 with
          | some (vs, b2, r2) => some (v :: vs, b2, r2)
          | none => none
      | _ => none

/-- One round of the delivery scenario of the spec (section 8): a successful
write immediately followed by a successful read by the one reader. -/
def writeReadRound {α : Type} (b : MpmcCircularBuffer α) (r : BufferReader) (v : α) :
    Option (α × MpmcCircularBuffer α × BufferReader) :=
  match b.try_write v with
  | (TryWrite.Ready, b1) =>
      match r.try_read b1 with
      | some (TryRead.Ready x, b2, r2) => some (x, b2, r2)
      | _ => none
  | _ => none

/-- Iterated write-then-read rounds, collecting the values delivered to the
reader. -/
def runRounds {α : Type} (b : MpmcCircularBuffer α) (r : BufferReader) :
    List α → Option (List α × MpmcCircularBuffer α × BufferReader)
  | [] => some ([], b, r)
  | v :: vs =>
      match writeReadRound b r v with
      | some (x, b1, r1) =>
          match runRounds b1 r1 vs with
          | some (xs, b2, r2) => some (x :: xs, b2, r2)
          | none => none
      | none => none

/-- One round of the two-reader scenario: a successful write followed by one
successful read from each of the two readers. -/
def pairRound {α : Type} (b : MpmcCircularBuffer α) (r1 r2 : BufferReader) (v : α) :
    Option ((α × α) × MpmcCircularBuffer α × BufferReader × BufferReader) :=
  match b.try_write v with
  | (TryWrite.Ready, b1) =>
      match r1.try_read b1 with
      | some (TryRead.Ready x1, b2, r1') =>
          match r2.try_read b2 with
          | some (TryRead.Ready x2, b3, r2') => some ((x1, x2), b3, r1', r2')
          | _ => none
      | _ => none
  | _ => none

/-- Iterated two-reader rounds, collecting the two delivery sequences. -/
def runPairRounds {α : Type} (b : MpmcCircularBuffer α) (r1 r2 : BufferReader) :
    List α → Option ((List α × List α) × MpmcCircularBuffer α × BufferReader × BufferReader)
  | [] => some (([], []), b, r1, r2)
  | v :: vs =>
      match pairRound b r1 r2 v with
      | some (x, b1, r1', r2') =>
          match runPairRounds b1 r1' r2' vs with
          | some (xs, b2, s1, s2) => some ((x.1 :: xs.1, x.2 :: xs.2), b2, s1, s2)
          | none => none
      | none => none

/-- Clone-fidelity scenario: from a fresh buffer of the requested capacity,
run the single-reader rounds over vs1, clone the reader, then run the
two-reader rounds over vs2 and report the two delivery sequences. -/
def cloneFidelityRun (c : Nat) (vs1 vs2 : List Nat) : Option (List Nat × List Nat) :=
  let start := MpmcCircularBuffer.new Nat c
  match runRounds start.1 start.2 vs1 with
  | some (_, b1, r1) =>
      let cl := r1.clone b1
      match runPairRounds cl.1 r1 cl.2 vs2 with
      | some (xs, _, _, _) => some (xs.1, xs.2)
      | none => none
  | none => none

/-- Staggered-speed clone scenario at capacity 4: clone the initial reader at
position 0, write three values, let the original reader consume all three,
then let the fully stalled clone catch up; report both delivery sequences. -/
def staggeredCloneRun : Option (List Nat × List Nat) :=
  let start := MpmcCircularBuffer.new Nat 4
  let cl := start.2.clone start.1
  let wr := writeAll cl.1 [1, 2, 3]
  match readN 3 wr.2 start.2 with
  | some (xs1, b3, _) =>
      match readN 3 b3 cl.2 with
      | some (xs2, _, _) => some (xs1, xs2)
      | none => none
  | none => none

/-- Capacity-2 buffer after two successful writes with the initial reader
never advancing: every slot holds an unreclaimed value, so the buffer is
full at the moment a late reader joins. -/
def lateJoinBuffer : MpmcCircularBuffer Nat :=
  (((MpmcCircularBuffer.new Nat 2).1.try_write 1).2.try_write 2).2

/-- Concrete buffer for the release-protocol witness: capacity 2 with one
value written, its slot still reserved by the initial reader. -/
def releaseWitnessBuffer : MpmcCircularBuffer Nat :=
  ((MpmcCircularBuffer.new Nat 2).1.try_write 5).2

/-- The buffer after the initial reader releases slot 0 of
releaseWitnessBuffer. -/
def releaseWitnessResult : MpmcCircularBuffer Nat :=
  ((MpmcCircularBuffer.new Nat 2).2.release 0 releaseWitnessBuffer).getD releaseWitnessBuffer

/-!
Whole-system state for the reachability claims: the buffer together with
every reader cursor ever handed out (drop retires an entry in place, so a
cursor keeps its identity across steps).
-/

/-- A buffer together with the reader cursors that exist; a retired (dropped)
cursor is recorded as none so positions are stable. -/
structure World (α : Type) where
  buf : MpmcCircularBuffer α
  readers : List (Option BufferReader)

/-- Initial world: a fresh buffer and its initial reader. -/
def World.init (α : Type) (capacity : Nat) : World α :=
  let start := MpmcCircularBuffer.new α capacity
  { buf := start.1, readers := [some start.2] }

/-- World-level try_write. -/
def World.write {α : Type} (w : World α) (v : α) : World α :=
  { w with buf := (w.buf.try_write v).2 }

/-- World-level try_read by the cursor at position i. -/
def World.read {α : Type} (w : World α) (i : Nat) : Option (World α) :=
  match w.readers[i]? with
  | some (some r) =>
      match r.try_read w.buf with
      | some (_, b1, r1) => some { buf := b1, readers := w.readers.set i (some r1) }
      | none => none
  | _ => none

/-- World-level new_reader. -/
def World.newReader {α : Type} (w : World α) : World α :=
  let step := w.buf.new_reader
  { buf := step.1, readers := w.readers ++ [some step.2] }

/-- World-level clone of the cursor at position i. -/
def World.cloneReader {α : Type} (w : World α) (i : Nat) : Option (World α) :=
  match w.readers[i]? with
  | some (some r) =>
      let step := r.clone w.buf
      some { buf := step.1, readers := w.readers ++ [some step.2] }
  | _ => none

/-- World-level drop of the cursor at position i. -/
def World.dropReader {α : Type} (w : World α) (i : Nat) : Option (World α) :=
  match w.readers[i]? with
  | some (some r) =>
      match r.drop w.buf with
      | some b1 => some { buf := b1, readers := w.readers.set i none }
      | none => none
  | _ => none

/-- Concrete worlds for the frame-effect witnesses. -/
def c10World : World Nat := (World.init Nat 2).write 5

/-- c10World after its reader reads once. -/
def c10Read : World Nat := (c10World.read 0).getD c10World

/-- c10World after cloning its reader. -/
def c10Clone : World Nat := (c10World.cloneReader 0).getD c10World

/-- c10World after dropping its reader. -/
def c10Drop : World Nat := (c10World.dropReader 0).getD c10World

/-!
Invariants used by the proofs below.
-/

/-- Exact state of the write-then-read delivery scenario after k rounds: the
buffer is drained (head = tail = k, every slot empty), the single reader
sits at k holding the one reservation (slot k mod len has refcount 1, all
other slots 0), and the admission lock is free.  Round 0 is the fresh
buffer with its Reading cursor; later rounds leave the cursor Blocked. -/
def RoundInv (c : Nat) {α : Type} (k : Nat) (b : MpmcCircularBuffer α)
    (r : BufferReader) : Prop :=
  b.len = max 2 c ∧ b.head = k ∧ b.tail = k ∧ b.head_lock = false ∧
  (∀ j, (b.slots j).value = none) ∧
  (∀ j, (b.slots j).refCount = if j = k % b.len then 1 else 0) ∧
  r.index = k ∧ (r.state = ReaderState.Reading ∨ r.state = ReaderState.Blocked)

/-- Exact state of the two-reader lockstep scenario after k rounds: as in
RoundInv but both readers sit at k and the slot at k mod len carries both
reservations. -/
def PairInv (c : Nat) {α : Type} (k : Nat) (b : MpmcCircularBuffer α)
    (r1 r2 : BufferReader) : Prop :=
  b.len = max 2 c ∧ b.head = k ∧ b.tail = k ∧ b.head_lock = false ∧
  (∀ j, (b.slots j).value = none) ∧
  (∀ j, (b.slots j).refCount = if j = k % b.len then 2 else 0) ∧
  r1.index = k ∧ (r1.state = ReaderState.Reading ∨ r1.state = ReaderState.Blocked) ∧
  r2.index = k ∧ (r2.state = ReaderState.Reading ∨ r2.state = ReaderState.Blocked)

/-- Exact buffer state of the backpressure scenario after the values ws
have been written while the initial reader never advances: slot j holds the
j-th written value, slot 0 still carries the initial reservation, and no
slot has been reclaimed. -/
def WriteInv (c : Nat) {α : Type} (ws : List α) (b : MpmcCircularBuffer α) : Prop :=
  b.len = max 2 c ∧ b.head = ws.length ∧ b.tail = 0 ∧ b.head_lock = false ∧
  ws.length ≤ b.len ∧
  (∀ j, (b.slots j).value = ws[j]?) ∧
  (∀ j, (b.slots j).refCount = if j = 0 then 1 else 0)

/-- Global buffer invariant: tail never passes head, and every occupied
physical slot is accounted for by a logical index in the window from tail
to head. -/
def BufInv {α : Type} (b : MpmcCircularBuffer α) : Prop :=
  b.tail ≤ b.head ∧
  ∀ j, ((b.slots j).value).isSome →
    ∃ k, b.tail ≤ k ∧ k < b.head ∧ k % b.len = j

/-- One public operation of the system.  Operations that panic in the source
(none results) produce no step. -/
inductive Step {α : Type} : World α → World α → Prop
  | write (w : World α) (v : α) : Step w (w.write v)
  | read (w w' : World α) (i : Nat) : w.read i = some w' → Step w w'
  | newReader (w : World α) : Step w w.newReader
  | clone (w w' : World α) (i : Nat) : w.cloneReader i = some w' → Step w w'
  | drop (w w' : World α) (i : Nat) : w.dropReader i = some w' → Step w w'

/-- States reachable from a fresh buffer of the given capacity by any
sequence of public operations. -/
def Reachable {α : Type} (capacity : Nat) (w : World α) : Prop :=
  Relation.ReflTransGen Step (World.init α capacity) w

/-!
Basic lemmas about the embedding.
-/

@[simp] theorem set_slot_len {α : Type} (b : MpmcCircularBuffer α) (id : Nat) (s : Slot α) :
    (b.set_slot id s).len = b.len := rfl

@[simp] theorem set_slot_head {α : Type} (b : MpmcCircularBuffer α) (id : Nat) (s : Slot α) :
    (b.set_slot id s).head = b.head := rfl

@[simp] theorem set_slot_tail {α : Type} (b : MpmcCircularBuffer α) (id : Nat) (s : Slot α) :
    (b.set_slot id s).tail = b.tail := rfl

@[simp] theorem set_slot_head_lock {α : Type} (b : MpmcCircularBuffer α) (id : Nat) (s : Slot α) :
    (b.set_slot id s).head_lock = b.head_lock := rfl

@[simp] theorem set_slot_slots {α : Type} (b : MpmcCircularBuffer α) (id : Nat) (s : Slot α)
    (j : Nat) :
    (b.set_slot id s).slots j = if j = id % b.len then s else b.slots j := rfl

theorem get_slot_set_slot {α : Type} (b : MpmcCircularBuffer α) (id : Nat) (s : Slot α)
    (id' : Nat) :
    (b.set_slot id s).get_slot id' =
      if id' % b.len = id % b.len then s else b.get_slot id' := rfl

/-- Two consecutive logical indices never address the same physical slot
when the buffer has at least two slots. -/
theorem succ_mod_ne {n k : Nat} (h : 2 ≤ n) : (k + 1) % n ≠ k % n := by
  intro heq
  have h1 : k ≡ k + 1 [MOD n] := heq.symm
  have h2 : n ∣ (k + 1) - k := (Nat.modEq_iff_dvd' (Nat.le_succ k)).mp h1
  have h3 : n = 1 := Nat.dvd_one.mp (by simpa using h2)
  omega

/-!
The write-then-read delivery scenario (claim C1).
-/

/-- One round from a RoundInv state delivers exactly the written value and
re-establishes RoundInv one position further. -/
theorem roundInv_step {α : Type} (c k : Nat) (b : MpmcCircularBuffer α) (r : BufferReader)
    (v : α) (h : RoundInv c k b r) :
    (writeReadRound b r v).elim False
      (fun t => t.1 = v ∧ RoundInv c (k + 1) t.2.1 t.2.2) := by
  obtain ⟨hlen, hhead, htail, hlock, hval, hcnt, hidx, hstate⟩ := h
  have hN : 2 ≤ b.len := by rw [hlen]; exact le_max_left 2 c
  have hmod : ((k + 1) % b.len = k % b.len) = False := by
    simpa using succ_mod_ne (k := k) hN
  have hmod' : (k % b.len = (k + 1) % b.len) = False := by
    simp only [eq_iff_iff, iff_false]
    intro he
    exact succ_mod_ne (k := k) hN he.symm
  have hkk : (k + 1 ≤ k) = False := by simp
  rcases hstate with hs | hs
  all_goals
    simp [writeReadRound, MpmcCircularBuffer.try_write, BufferReader.try_read,
      BufferReader.try_read_at, BufferReader.advance, BufferReader.release,
      MpmcCircularBuffer.get_slot, MpmcCircularBuffer.set_slot, Slot.try_write,
      Slot.try_read, Slot.acquire_next, Slot.acquire, Slot.subscribe_write,
      Slot.decrement, Slot.release, hval, hcnt, hidx, hhead, htail, hlock, hs,
      hmod, hmod', hkk, RoundInv, ← hlen, Option.elim]
  all_goals
    refine ⟨fun j => ?_, fun j => ?_⟩ <;> split_ifs <;> simp_all

/-- The fresh buffer with its initial reader is a RoundInv state at round
zero. -/
theorem roundInv_init {α : Type} (c : Nat) :
    RoundInv c 0 (MpmcCircularBuffer.new α c).1 (MpmcCircularBuffer.new α c).2 := by
  refine ⟨rfl, rfl, rfl, rfl, fun j => ?_, fun j => ?_, rfl, Or.inl rfl⟩ <;>
    simp [MpmcCircularBuffer.new, MpmcCircularBuffer.set_slot,
      MpmcCircularBuffer.get_slot, Slot.acquire] <;>
    split_ifs <;> simp_all

/-- Iterated rounds from a RoundInv state deliver exactly the written list
in order. -/
theorem runRounds_inv {α : Type} (c : Nat) (vs : List α) :
    ∀ (k : Nat) (b : MpmcCircularBuffer α) (r : BufferReader), RoundInv c k b r →
      (runRounds b r vs).elim False
        (fun t => t.1 = vs ∧ RoundInv c (k + vs.length) t.2.1 t.2.2) := by
  induction vs with
  | nil =>
      intro k b r h
      simpa [runRounds, Option.elim] using h
  | cons v vs ih =>
      intro k b r h
      have h1 := roundInv_step c k b r v h
      cases hw : writeReadRound b r v with
      | none => rw [hw] at h1; simp [Option.elim] at h1
      | some t =>
          rw [hw] at h1
          simp only [Option.elim] at h1
          obtain ⟨x, b1, r1⟩ := t
          obtain ⟨hx, hinv⟩ := h1
          have h2 := ih (k + 1) b1 r1 hinv
          cases hr : runRounds b1 r1 vs with
          | none => rw [hr] at h2; simp [Option.elim] at h2
          | some u =>
              rw [hr] at h2
              simp only [Option.elim] at h2
              obtain ⟨ys, b2, r2⟩ := u
              obtain ⟨hys, hinv2⟩ := h2
              dsimp only at hx hinv hys hinv2
              simp only [runRounds, hw, hr, Option.elim]
              refine ⟨by simp [hx, hys], ?_⟩
              have : k + 1 + vs.length = k + (vs.length + 1) := by omega
              simpa [List.length_cons, this] using hinv2

/-- Delivery: from a fresh buffer of any capacity the write-then-read
rounds deliver exactly the written values in order. -/
theorem runRounds_delivers (c : Nat) (vs : List Nat) :
    (runRounds (MpmcCircularBuffer.new Nat c).1 (MpmcCircularBuffer.new Nat c).2 vs).map
      (fun t => t.1) = some vs := by
  have h := runRounds_inv c vs 0 (MpmcCircularBuffer.new Nat c).1
    (MpmcCircularBuffer.new Nat c).2 (roundInv_init c)
  cases hr : runRounds (MpmcCircularBuffer.new Nat c).1 (MpmcCircularBuffer.new Nat c).2 vs with
  | none => rw [hr] at h; simp [Option.elim] at h
  | some t =>
      rw [hr] at h
      simp only [Option.elim] at h
      simp [h.1]

/-- Reading from a fresh buffer before any write is Pending, not an
error. -/
theorem fresh_read_pending (c : Nat) :
    ((MpmcCircularBuffer.new Nat c).2.try_read (MpmcCircularBuffer.new Nat c).1).map
      (fun t => t.1) = some TryRead.Pending := by
  simp [MpmcCircularBuffer.new, BufferReader.try_read, BufferReader.try_read_at,
    MpmcCircularBuffer.get_slot, MpmcCircularBuffer.set_slot, Slot.acquire, Slot.try_read]

/-- C1.  Exactly-once, in-order delivery: for the reader created at
construction, performing for each written value a successful try_write
followed by a try_read (retried past Pending) delivers exactly the written
values in write order, with no duplicates or omissions, for every capacity
and every value list; a try_read issued before any write returns Pending
rather than an error; and in the concrete capacity-4 scenario the values
1, 2, 3 can also be written as a burst and are then read back as 1, 2, 3
in order. -/
theorem claim_C1_exactly_once_in_order :
    (∀ (c : Nat) (vs : List Nat),
       (runRounds (MpmcCircularBuffer.new Nat c).1 (MpmcCircularBuffer.new Nat c).2 vs).map
         (fun t => t.1) = some vs)
  ∧ (∀ c : Nat,
       ((MpmcCircularBuffer.new Nat c).2.try_read (MpmcCircularBuffer.new Nat c).1).map
         (fun t => t.1) = some TryRead.Pending)
  ∧ (readN 3 (writeAll (MpmcCircularBuffer.new Nat 4).1 [1, 2, 3]).2
       (MpmcCircularBuffer.new Nat 4).2).map (fun t => t.1) = some [1, 2, 3] :=
  ⟨runRounds_delivers, fresh_read_pending, by decide⟩

/-!
Generic facts about try_write, and the backpressure scenario (claim C2).
-/

theorem try_write_ready_fst {α : Type} (b : MpmcCircularBuffer α) (v : α)
    (h : (b.get_slot b.head).value = none) : (b.try_write v).1 = TryWrite.Ready := by
  simp [MpmcCircularBuffer.try_write, MpmcCircularBuffer.get_slot, Slot.try_write] at h ⊢
  simp [h]

theorem try_write_ready_head {α : Type} (b : MpmcCircularBuffer α) (v : α)
    (h : (b.get_slot b.head).value = none) : (b.try_write v).2.head = b.head + 1 := by
  simp [MpmcCircularBuffer.try_write, MpmcCircularBuffer.get_slot, Slot.try_write] at h ⊢
  simp [h]

theorem try_write_ready_tail {α : Type} (b : MpmcCircularBuffer α) (v : α)
    (h : (b.get_slot b.head).value = none) : (b.try_write v).2.tail = b.tail := by
  simp [MpmcCircularBuffer.try_write, MpmcCircularBuffer.get_slot, Slot.try_write] at h ⊢
  simp [h]

theorem try_write_ready_len {α : Type} (b : MpmcCircularBuffer α) (v : α)
    (h : (b.get_slot b.head).value = none) : (b.try_write v).2.len = b.len := by
  simp [MpmcCircularBuffer.try_write, MpmcCircularBuffer.get_slot, Slot.try_write] at h ⊢
  simp [h]

theorem try_write_ready_lock {α : Type} (b : MpmcCircularBuffer α) (v : α)
    (h : (b.get_slot b.head).value = none) : (b.try_write v).2.head_lock = false := by
  simp [MpmcCircularBuffer.try_write, MpmcCircularBuffer.get_slot, Slot.try_write] at h ⊢
  simp [h]

theorem try_write_ready_slots {α : Type} (b : MpmcCircularBuffer α) (v : α)
    (h : (b.get_slot b.head).value = none) (j : Nat) :
    (b.try_write v).2.slots j =
      if j = b.head % b.len then
        { b.get_slot b.head with value := some v }
      else b.slots j := by
  simp [MpmcCircularBuffer.try_write, MpmcCircularBuffer.get_slot,
    MpmcCircularBuffer.set_slot, Slot.try_write] at h ⊢
  simp [h, MpmcCircularBuffer.get_slot]

/-- A write against an occupied head slot hands the value back and leaves
the buffer exactly as it was (in particular head is unchanged and the
admission lock is released). -/
theorem try_write_pending {α : Type} (b : MpmcCircularBuffer α) (v w : α)
    (h : (b.get_slot b.head).value = some w) (hlock : b.head_lock = false) :
    b.try_write v = (TryWrite.Pending v, b) := by
  cases b with
  | mk slots len head_lock head tail =>
      simp [MpmcCircularBuffer.get_slot] at h
      simp at hlock
      subst hlock
      simp [MpmcCircularBuffer.try_write, MpmcCircularBuffer.get_slot, Slot.try_write, h]

theorem writeInv_init {α : Type} (c : Nat) :
    WriteInv c ([] : List α) (MpmcCircularBuffer.new α c).1 := by
  refine ⟨rfl, rfl, rfl, rfl, by simp, fun j => ?_, fun j => ?_⟩ <;>
    simp [MpmcCircularBuffer.new, MpmcCircularBuffer.set_slot,
      MpmcCircularBuffer.get_slot, Slot.acquire] <;>
    split_ifs <;> simp_all

theorem writeInv_step {α : Type} (c : Nat) (ws : List α) (b : MpmcCircularBuffer α) (v : α)
    (h : WriteInv c ws b) (hlt : ws.length < b.len) :
    (b.try_write v).1 = TryWrite.Ready ∧ WriteInv c (ws ++ [v]) (b.try_write v).2 := by
  obtain ⟨hlen, hhead, htail, hlock, hle, hval, hcnt⟩ := h
  have hmod : ws.length % b.len = ws.length := Nat.mod_eq_of_lt hlt
  have hv : (b.get_slot b.head).value = none := by
    simp [MpmcCircularBuffer.get_slot, hhead, hmod, hval]
  refine ⟨try_write_ready_fst b v hv, ?_, ?_, ?_, ?_, ?_, fun j => ?_, fun j => ?_⟩
  · rw [try_write_ready_len b v hv, hlen]
  · rw [try_write_ready_head b v hv, hhead]; simp
  · rw [try_write_ready_tail b v hv, htail]
  · exact try_write_ready_lock b v hv
  · rw [try_write_ready_len b v hv]; simp; omega
  · rw [try_write_ready_slots b v hv j, hhead, hmod]
    split_ifs with h1
    · subst h1; simp
    · rw [hval j]
      rcases Nat.lt_or_ge j ws.length with hj | hj
      · simp [List.getElem?_append, hj]
      · have hj2 : ws.length < j := by omega
        rw [List.getElem?_eq_none (by omega), List.getElem?_eq_none (by simp; omega)]
  · rw [try_write_ready_slots b v hv j, hhead, hmod]
    split_ifs with h1 <;> simp_all [MpmcCircularBuffer.get_slot, hmod]

/-- While the buffer still has unwritten slots and the only reader never
advances, every write succeeds. -/
theorem writeAll_ready {α : Type} (c : Nat) (vs : List α) :
    ∀ (ws : List α) (b : MpmcCircularBuffer α), WriteInv c ws b →
      ws.length + vs.length ≤ b.len →
      (writeAll b vs).1 = vs.map (fun _ => TryWrite.Ready) ∧
        WriteInv c (ws ++ vs) (writeAll b vs).2 := by
  induction vs with
  | nil => intro ws b h _; simpa [writeAll] using h
  | cons v vs ih =>
      intro ws b h hle
      simp only [List.length_cons] at hle
      have h1 := writeInv_step c ws b v h (by omega)
      have hlen2 : (b.try_write v).2.len = b.len := by
        rw [h1.2.1, h.1]
      have h2 := ih (ws ++ [v]) (b.try_write v).2 h1.2
        (by simp only [List.length_append, List.length_singleton, hlen2]; omega)
      constructor
      · simp [writeAll, h1.1, h2.1]
      · have := h2.2
        simpa [writeAll, List.append_assoc] using this

/-- Once every slot holds an unreclaimed value, a write returns Pending
with the value and leaves the buffer unchanged. -/
theorem writeInv_full_pending {α : Type} (c : Nat) (ws : List α) (b : MpmcCircularBuffer α)
    (v : α) (h : WriteInv c ws b) (hfull : ws.length = b.len) :
    b.try_write v = (TryWrite.Pending v, b) := by
  obtain ⟨hlen, hhead, htail, hlock, hle, hval, hcnt⟩ := h
  have hN : 2 ≤ b.len := by rw [hlen]; exact le_max_left 2 c
  have hmod : b.head % b.len = 0 := by rw [hhead, hfull]; exact Nat.mod_self _
  have h0 : 0 < ws.length := by omega
  obtain ⟨v0, hv0⟩ : ∃ v0, ws[0]? = some v0 := ⟨ws[0], by simp [h0]⟩
  refine try_write_pending b v v0 ?_ hlock
  simp [MpmcCircularBuffer.get_slot, hmod, hval, hv0]

/-- Once the stalled reader advances past its slot, the slot is reclaimed
and a write succeeds again. -/
theorem writeInv_full_read_write {α : Type} (c : Nat) (ws : List α) (b : MpmcCircularBuffer α)
    (w : α) (h : WriteInv c ws b) (hfull : ws.length = b.len) :
    ((BufferReader.mk 0 ReaderState.Reading).try_read b).map
      (fun t => (t.2.1.try_write w).1) = some TryWrite.Ready := by
  obtain ⟨hlen, hhead, htail, hlock, hle, hval, hcnt⟩ := h
  have hN : 2 ≤ b.len := by rw [hlen]; exact le_max_left 2 c
  have hmod1 : 1 % b.len = 1 := Nat.mod_eq_of_lt (by omega)
  have hmodL : ws.length % b.len = 0 := by rw [hfull]; exact Nat.mod_self _
  have hle1 : (b.len ≤ 0 + 1) = False := by simp; omega
  have hleW : (ws.length ≤ 1) = False := by simp; omega
  have h0 : 0 < ws.length := by omega
  obtain ⟨v0, hv0⟩ : ∃ v0, ws[0]? = some v0 := ⟨ws[0], by simp [h0]⟩
  simp [BufferReader.try_read, BufferReader.try_read_at, BufferReader.advance,
    BufferReader.release, MpmcCircularBuffer.try_write, MpmcCircularBuffer.get_slot,
    MpmcCircularBuffer.set_slot, Slot.try_write, Slot.try_read, Slot.acquire,
    Slot.acquire_next, Slot.subscribe_write, Slot.decrement, Slot.release,
    hval, hcnt, hhead, htail, hlock, hmod1, hmodL, hle1, hleW, hv0]

/-- C2, counterexample.  The claim states that with capacity C and a reader
that never advances exactly C - 1 try_write calls succeed; at capacity 2
that would be a single successful write, but the second write also returns
Ready (the writer may fill every slot, including empty slots never reserved
by a reader). -/
theorem claim_C2_counterexample :
    ((MpmcCircularBuffer.new Nat 2).1.try_write 10).1 = TryWrite.Ready
  ∧ ((((MpmcCircularBuffer.new Nat 2).1.try_write 10).2).try_write 11).1 = TryWrite.Ready := by
  decide

/-- C2, amended.  With a buffer of capacity C (the clamped capacity,
max 2 c) and the single initial reader never advancing, exactly C try_write
calls succeed; every further try_write returns Pending carrying the
unconsumed value back to the caller and leaves the buffer unchanged (head
unchanged, admission lock released); and try_write succeeds again after
the stalled reader advances once and its old slot is reclaimed. -/
theorem claim_C2_backpressure_amended (c : Nat) (vs : List Nat)
    (hlen : vs.length = max 2 c) :
    (writeAll (MpmcCircularBuffer.new Nat c).1 vs).1 = vs.map (fun _ => TryWrite.Ready)
  ∧ (∀ w : Nat, ((writeAll (MpmcCircularBuffer.new Nat c).1 vs).2).try_write w
        = (TryWrite.Pending w, (writeAll (MpmcCircularBuffer.new Nat c).1 vs).2))
  ∧ (∀ w : Nat, (((MpmcCircularBuffer.new Nat c).2.try_read
        (writeAll (MpmcCircularBuffer.new Nat c).1 vs).2).map
        (fun t => (t.2.1.try_write w).1)) = some TryWrite.Ready) := by
  have hinit := writeInv_init (α := Nat) c
  have h1 := writeAll_ready c vs [] (MpmcCircularBuffer.new Nat c).1 hinit
    (by simp [hinit.1, hlen])
  simp only [List.nil_append] at h1
  have hfull : vs.length = (writeAll (MpmcCircularBuffer.new Nat c).1 vs).2.len := by
    rw [h1.2.1, hlen]
  refine ⟨h1.1, fun w => writeInv_full_pending c vs _ w h1.2 hfull,
    fun w => writeInv_full_read_write c vs _ w h1.2 hfull⟩

/-- Witness for C2 amended at capacity 2 with writes 10, 11 and the
attempted overflow write 12. -/
theorem claim_C2_backpressure_amended_witness :
    (writeAll (MpmcCircularBuffer.new Nat 2).1 [10, 11]).1
        = List.map (fun _ => TryWrite.Ready) [10, 11]
  ∧ ((writeAll (MpmcCircularBuffer.new Nat 2).1 [10, 11]).2).try_write 12
        = (TryWrite.Pending 12, (writeAll (MpmcCircularBuffer.new Nat 2).1 [10, 11]).2)
  ∧ (((MpmcCircularBuffer.new Nat 2).2.try_read
        (writeAll (MpmcCircularBuffer.new Nat 2).1 [10, 11]).2).map
        (fun t => (t.2.1.try_write 12).1)) = some TryWrite.Ready := by
  have h := claim_C2_backpressure_amended 2 [10, 11] (by decide)
  exact ⟨h.1, h.2.1 12, h.2.2 12⟩

/-!
The release, advance and disposal protocols (claims C3, C4, C5).
-/

/-- Writing the same logical slot twice keeps only the second write (the
source mutates the cell in place). -/
theorem set_slot_set_slot_same {α : Type} (b : MpmcCircularBuffer α) (id : Nat)
    (s1 s2 : Slot α) : (b.set_slot id s1).set_slot id s2 = b.set_slot id s2 := by
  cases b with
  | mk slots len hl h t =>
      simp only [MpmcCircularBuffer.set_slot]
      congr 1
      funext j
      by_cases hj : j = id % len <;> simp [hj]

/-- BufferReader.release computes exactly the release protocol read off the
specification. -/
theorem release_eq_spec {α : Type} (r : BufferReader) (id : Nat)
    (b : MpmcCircularBuffer α) : r.release id b = releaseSpec id b := by
  simp only [BufferReader.release, releaseSpec, Slot.decrement, Slot.release,
    set_slot_tail]
  split_ifs with h1 h2 <;>
    first
      | rfl
      | (cases hv : (b.get_slot id).value <;> simp [hv, h1, set_slot_set_slot_same])

/-- C3.  Release protocol: BufferReader.release coincides with the
protocol read off the specification (decrement; Alive changes nothing
else; Dead at the tail physically empties the slot and advances tail by
exactly one; Dead elsewhere leaves the slot Dead and everything else
unchanged), and the tail only ever advances through a release occurring
exactly at the slot whose index equals the current tail. -/
theorem claim_C3_release_protocol :
    (∀ (α : Type) (r : BufferReader) (id : Nat) (b : MpmcCircularBuffer α),
        r.release id b = releaseSpec id b)
  ∧ (∀ (α : Type) (r : BufferReader) (id : Nat) (b b' : MpmcCircularBuffer α),
        r.release id b = some b' → b'.tail ≠ b.tail →
          id = b.tail ∧ b'.tail = b.tail + 1) := by
  refine ⟨fun α r id b => release_eq_spec r id b, fun α r id b b' hsome hne => ?_⟩
  rw [release_eq_spec] at hsome
  by_cases h1 : (b.get_slot id).refCount - 1 = 0
  · by_cases h2 : id = b.tail
    · subst h2
      cases hv : (b.get_slot b.tail).value with
      | none =>
          have hx : releaseSpec b.tail b = none := by
            simp [releaseSpec, h1, hv]
          rw [hx] at hsome
          exact absurd hsome (by simp)
      | some w =>
          have hx : releaseSpec b.tail b = some
              { b.set_slot b.tail
                  { value := none, refCount := (b.get_slot b.tail).refCount - 1,
                    subscribed := (b.get_slot b.tail).subscribed } with tail := b.tail + 1 } := by
            simp [releaseSpec, h1, hv]
          rw [hx] at hsome
          simp only [Option.some.injEq] at hsome
          subst hsome
          exact ⟨rfl, rfl⟩
    · have hx : releaseSpec id b = some (b.set_slot id
          { value := (b.get_slot id).value, refCount := (b.get_slot id).refCount - 1,
            subscribed := (b.get_slot id).subscribed }) := by
        simp [releaseSpec, h1, h2]
      rw [hx] at hsome
      simp only [Option.some.injEq] at hsome
      subst hsome
      simp at hne
  · have hx : releaseSpec id b = some (b.set_slot id
        { value := (b.get_slot id).value, refCount := (b.get_slot id).refCount - 1,
          subscribed := (b.get_slot id).subscribed }) := by
      simp [releaseSpec, h1]
    rw [hx] at hsome
    simp only [Option.some.injEq] at hsome
    subst hsome
    simp at hne

/-- Witness for C3: the initial reader of a capacity-2 buffer releases the
written slot 0; the release agrees with the specification protocol and
advances the tail from 0 to 1. -/
theorem claim_C3_release_protocol_witness :
    (MpmcCircularBuffer.new Nat 2).2.release 0 releaseWitnessBuffer
        = releaseSpec 0 releaseWitnessBuffer
  ∧ (0 = releaseWitnessBuffer.tail ∧
      releaseWitnessResult.tail = releaseWitnessBuffer.tail + 1) :=
  ⟨claim_C3_release_protocol.1 Nat (MpmcCircularBuffer.new Nat 2).2 0 releaseWitnessBuffer,
   claim_C3_release_protocol.2 Nat (MpmcCircularBuffer.new Nat 2).2 0 releaseWitnessBuffer
     releaseWitnessResult rfl (by decide)⟩

/-- C4.  Advance protocol: advancing from id with the cursor index equal to
id takes the admission lock and compares id + 1 against head (the lock is
free again afterwards); if id + 1 has not yet been produced (head ≤ id + 1)
the slot at id + 1 is pre-reserved via acquire_next, the cursor becomes
Blocked at id + 1 and a wake subscription is registered (on the slot the
cursor is leaving, as the source does); if id + 1 < head the slot at id + 1
is reserved with a normal acquire and the cursor keeps its state; in both
cases head and tail are untouched and the index moves from id to id + 1 by
a compare-and-swap; if the stored index differs from id the swap fails,
which is the fatal invariant violation of the source. -/
theorem claim_C4_advance_protocol :
    (∀ (α : Type) (r : BufferReader) (id : Nat) (b : MpmcCircularBuffer α),
        b.head ≤ id + 1 → r.index = id →
        (r.advance id b).map (fun t =>
            (t.2, (t.1.get_slot (id + 1)).refCount, (t.1.get_slot id).subscribed,
             t.1.head, t.1.tail, t.1.head_lock))
          = some (BufferReader.mk (id + 1) ReaderState.Blocked,
              (b.get_slot (id + 1)).refCount + 1, true, b.head, b.tail, false))
  ∧ (∀ (α : Type) (r : BufferReader) (id : Nat) (b : MpmcCircularBuffer α),
        id + 1 < b.head → r.index = id →
        (r.advance id b).map (fun t =>
            (t.2, (t.1.get_slot (id + 1)).refCount, t.1.head, t.1.tail, t.1.head_lock))
          = some (BufferReader.mk (id + 1) r.state,
              (b.get_slot (id + 1)).refCount + 1, b.head, b.tail, false))
  ∧ (∀ (α : Type) (r : BufferReader) (id : Nat) (b : MpmcCircularBuffer α),
        r.index ≠ id → r.advance id b = none) := by
  refine ⟨?_, ?_, ?_⟩
  · intro α r id b hh hidx
    by_cases halias : (id + 1) % b.len = id % b.len <;>
      simp [BufferReader.advance, MpmcCircularBuffer.get_slot,
        MpmcCircularBuffer.set_slot, Slot.acquire_next, Slot.subscribe_write,
        hh, hidx, halias]
  · intro α r id b hh hidx
    have hh2 : ¬ b.head ≤ id + 1 := by omega
    by_cases halias : (id + 1) % b.len = id % b.len <;>
      simp [BufferReader.advance, MpmcCircularBuffer.get_slot,
        MpmcCircularBuffer.set_slot, Slot.acquire, hh2, hidx, halias]
  · intro α r id b hne
    by_cases hh : b.head ≤ id + 1 <;>
      simp [BufferReader.advance, hh, hne]

/-- Witness for C4: the initial reader of a fresh capacity-2 buffer
advances from slot 0 with head 0 (blocked pre-reservation case), and a
cursor whose stored index disagrees with the advanced-from id hits the
fatal compare-and-swap failure. -/
theorem claim_C4_advance_protocol_witness :
    ((MpmcCircularBuffer.new Nat 2).2.advance 0 (MpmcCircularBuffer.new Nat 2).1).map
        (fun t => (t.2, (t.1.get_slot 1).refCount, (t.1.get_slot 0).subscribed,
            t.1.head, t.1.tail, t.1.head_lock))
      = some (BufferReader.mk 1 ReaderState.Blocked,
          ((MpmcCircularBuffer.new Nat 2).1.get_slot 1).refCount + 1, true,
          (MpmcCircularBuffer.new Nat 2).1.head, (MpmcCircularBuffer.new Nat 2).1.tail, false)
  ∧ (BufferReader.mk 5 ReaderState.Reading).advance 0 (MpmcCircularBuffer.new Nat 2).1 = none :=
  ⟨claim_C4_advance_protocol.1 Nat (MpmcCircularBuffer.new Nat 2).2 0
      (MpmcCircularBuffer.new Nat 2).1 (by decide) rfl,
   claim_C4_advance_protocol.2.2 Nat (BufferReader.mk 5 ReaderState.Reading) 0
      (MpmcCircularBuffer.new Nat 2).1 (by decide)⟩

/-- C5.  Disposal: dropping a Blocked cursor undoes its pre-reservation via
decrement_next on the slot at its index; dropping a Reading cursor performs
the normal release on its current slot; and pre-reserving through a blocked
advance followed by dropping the blocked cursor restores the refcount of
the awaited slot to exactly what it was before, so a later writer fill and
reclamation behave as if that cursor never existed. -/
theorem claim_C5_disposal_safety :
    (∀ (α : Type) (r : BufferReader) (b : MpmcCircularBuffer α),
        r.state = ReaderState.Blocked →
        r.drop b = some (b.set_slot r.index ((b.get_slot r.index).decrement_next)))
  ∧ (∀ (α : Type) (r : BufferReader) (b : MpmcCircularBuffer α),
        r.state = ReaderState.Reading →
        r.drop b = r.release r.index b)
  ∧ (∀ (α : Type) (r : BufferReader) (id : Nat) (b : MpmcCircularBuffer α),
        b.head ≤ id + 1 → r.index = id →
        ((r.advance id b).bind (fun t => t.2.drop t.1)).map
            (fun b2 => (b2.get_slot (id + 1)).refCount)
          = some ((b.get_slot (id + 1)).refCount)) := by
  refine ⟨?_, ?_, ?_⟩
  · intro α r b hs
    simp [BufferReader.drop, hs]
  · intro α r b hs
    simp [BufferReader.drop, hs]
  · intro α r id b hh hidx
    by_cases halias : (id + 1) % b.len = id % b.len <;>
      simp [BufferReader.advance, BufferReader.drop, MpmcCircularBuffer.get_slot,
        MpmcCircularBuffer.set_slot, Slot.acquire_next, Slot.subscribe_write,
        Slot.decrement_next, hh, hidx, halias]

/-- Witness for C5: dropping a Blocked cursor on a fresh capacity-2 buffer
performs the decrement_next undo, and advance-then-drop leaves the refcount
of the awaited slot exactly as it was. -/
theorem claim_C5_disposal_safety_witness :
    (BufferReader.mk 1 ReaderState.Blocked).drop (MpmcCircularBuffer.new Nat 2).1
        = some ((MpmcCircularBuffer.new Nat 2).1.set_slot 1
            (((MpmcCircularBuffer.new Nat 2).1.get_slot 1).decrement_next))
  ∧ (((MpmcCircularBuffer.new Nat 2).2.advance 0 (MpmcCircularBuffer.new Nat 2).1).bind
        (fun t => t.2.drop t.1)).map (fun b2 => (b2.get_slot 1).refCount)
      = some (((MpmcCircularBuffer.new Nat 2).1.get_slot 1).refCount) :=
  ⟨claim_C5_disposal_safety.1 Nat (BufferReader.mk 1 ReaderState.Blocked)
      (MpmcCircularBuffer.new Nat 2).1 rfl,
   claim_C5_disposal_safety.2.2 Nat (MpmcCircularBuffer.new Nat 2).2 0
      (MpmcCircularBuffer.new Nat 2).1 (by decide) rfl⟩

/-!
Late-join semantics of new_reader (claim C6).
-/

/-- A Reading cursor positioned at idx on a buffer whose head is idx + 1,
whose slot idx holds v and is reserved, reads exactly v. -/
theorem read_newly_written {α : Type} (b1 : MpmcCircularBuffer α) (idx : Nat) (v : α)
    (hlen : 2 ≤ b1.len) (hhead : b1.head = idx + 1)
    (hval : (b1.get_slot idx).value = some v)
    (hcnt : ¬ (b1.get_slot idx).refCount = 0) :
    ((BufferReader.mk idx ReaderState.Reading).try_read b1).map (fun t => t.1)
      = some (TryRead.Ready v) := by
  have hmod : ((idx + 1) % b1.len = idx % b1.len) = False := by
    simpa using succ_mod_ne (k := idx) hlen
  have hmod' : (idx % b1.len = (idx + 1) % b1.len) = False := by
    simp only [eq_iff_iff, iff_false]
    intro he
    exact succ_mod_ne (k := idx) hlen he.symm
  simp only [MpmcCircularBuffer.get_slot] at hval hcnt
  simp [BufferReader.try_read, BufferReader.try_read_at, BufferReader.advance,
    BufferReader.release, MpmcCircularBuffer.get_slot, MpmcCircularBuffer.set_slot,
    Slot.acquire, Slot.acquire_next, Slot.subscribe_write, Slot.try_read,
    Slot.decrement, Slot.release, hval, hcnt, hhead, hmod, hmod']
  split_ifs <;> simp_all

/-- Mechanics of new_reader: cursor at head in Reading state, head and
length untouched, one additional reservation on the slot at head, value
untouched. -/
theorem new_reader_fields {α : Type} (b : MpmcCircularBuffer α) :
    (b.new_reader).2 = BufferReader.mk b.head ReaderState.Reading
  ∧ (b.new_reader).1.head = b.head
  ∧ (b.new_reader).1.len = b.len
  ∧ ((b.new_reader).1.get_slot b.head).refCount = (b.get_slot b.head).refCount + 1
  ∧ ((b.new_reader).1.get_slot b.head).value = (b.get_slot b.head).value := by
  refine ⟨rfl, rfl, rfl, ?_, ?_⟩ <;>
    simp [MpmcCircularBuffer.new_reader, MpmcCircularBuffer.get_slot,
      MpmcCircularBuffer.set_slot, Slot.acquire]

/-- A reader created while the slot at head is still empty observes the
very next written value. -/
theorem late_join_read_after_write {α : Type} (b : MpmcCircularBuffer α) (v : α)
    (h : (b.get_slot b.head).value = none) (hN : 2 ≤ b.len) :
    ((b.new_reader).1.try_write v).1 = TryWrite.Ready
  ∧ (((b.new_reader).2).try_read ((b.new_reader).1.try_write v).2).map (fun t => t.1)
      = some (TryRead.Ready v) := by
  obtain ⟨hr, hh0, hl0, hc0, hv0⟩ := new_reader_fields b
  have h1 : (((b.new_reader).1).get_slot ((b.new_reader).1).head).value = none := by
    rw [hh0]
    rw [hv0]
    exact h
  refine ⟨try_write_ready_fst _ v h1, ?_⟩
  have hlen1 : ((b.new_reader).1.try_write v).2.len = b.len := by
    rw [try_write_ready_len _ v h1, hl0]
  have hhead1 : ((b.new_reader).1.try_write v).2.head = b.head + 1 := by
    rw [try_write_ready_head _ v h1, hh0]
  have hval1 : (((b.new_reader).1.try_write v).2.get_slot b.head).value = some v := by
    have hs := try_write_ready_slots _ v h1 (b.head % b.len)
    rw [hh0, hl0] at hs
    simp at hs
    simp [MpmcCircularBuffer.get_slot, hlen1, hs]
  have hcnt1 : ¬ (((b.new_reader).1.try_write v).2.get_slot b.head).refCount = 0 := by
    have hs := try_write_ready_slots _ v h1 (b.head % b.len)
    rw [hh0, hl0] at hs
    simp at hs
    simp [MpmcCircularBuffer.get_slot, hlen1, hs]
    simp [MpmcCircularBuffer.get_slot] at hc0
    simp [hc0]
  rw [hr]
  exact read_newly_written _ b.head v (by rw [hlen1]; exact hN) hhead1 hval1 hcnt1

/-- C6, counterexample.  A reader created after two successful writes (of
values 1 and 2) into a capacity-2 buffer immediately reads value 1, a
value written before its creation: when head - tail equals the capacity,
the slot at head still physically holds the oldest unreclaimed value, and
the snapshot-recheck of new_reader cannot detect it. -/
theorem claim_C6_counterexample :
    ((MpmcCircularBuffer.new Nat 2).1.try_write 1).1 = TryWrite.Ready
  ∧ (((MpmcCircularBuffer.new Nat 2).1.try_write 1).2.try_write 2).1 = TryWrite.Ready
  ∧ ((lateJoinBuffer.new_reader).2.try_read (lateJoinBuffer.new_reader).1).map
      (fun t => t.1) = some (TryRead.Ready 1) := by
  decide

/-- C6, amended.  new_reader snapshots head, acquires the slot at that
index and re-checks head (the retry collapses in the sequential embedding),
returning a Reading cursor at index head holding one extra reservation on
that slot, everything else untouched.  Provided the slot at head is still
empty at creation (which fails exactly when the buffer is full, as the
counterexample shows), the new reader observes no pre-creation value: its
try_read is Pending until a write occurs at its position, and after the
next successful write it reads exactly that newly written value. -/
theorem claim_C6_late_join_amended :
    (∀ (α : Type) (b : MpmcCircularBuffer α),
        (b.new_reader).2 = BufferReader.mk b.head ReaderState.Reading
      ∧ (b.new_reader).1.head = b.head
      ∧ (b.new_reader).1.tail = b.tail
      ∧ (b.new_reader).1.head_lock = b.head_lock
      ∧ (b.new_reader).1.len = b.len
      ∧ ((b.new_reader).1.get_slot b.head).refCount = (b.get_slot b.head).refCount + 1
      ∧ ∀ j, j ≠ b.head % b.len → (b.new_reader).1.slots j = b.slots j)
  ∧ (∀ (α : Type) (b : MpmcCircularBuffer α),
        (b.get_slot b.head).value = none →
        (((b.new_reader).2).try_read (b.new_reader).1).map (fun t => t.1)
          = some TryRead.Pending)
  ∧ (∀ (α : Type) (b : MpmcCircularBuffer α) (v : α),
        (b.get_slot b.head).value = none → 2 ≤ b.len →
        ((b.new_reader).1.try_write v).1 = TryWrite.Ready
      ∧ (((b.new_reader).2).try_read ((b.new_reader).1.try_write v).2).map (fun t => t.1)
          = some (TryRead.Ready v)) := by
  refine ⟨?_, ?_, fun α b v h hN => late_join_read_after_write b v h hN⟩
  · intro α b
    refine ⟨rfl, rfl, rfl, rfl, rfl, ?_, fun j hj => ?_⟩
    · simp [MpmcCircularBuffer.new_reader, MpmcCircularBuffer.get_slot,
        MpmcCircularBuffer.set_slot, Slot.acquire]
    · simp [MpmcCircularBuffer.new_reader, MpmcCircularBuffer.set_slot, hj]
  · intro α b h
    simp [MpmcCircularBuffer.new_reader, BufferReader.try_read, BufferReader.try_read_at,
      MpmcCircularBuffer.get_slot, MpmcCircularBuffer.set_slot, Slot.acquire,
      Slot.try_read] at h ⊢
    simp [h]

/-- Witness for C6 amended: on a fresh capacity-3 buffer a new reader first
reads Pending, and after a write of 7 it reads exactly 7. -/
theorem claim_C6_late_join_amended_witness :
    ((((MpmcCircularBuffer.new Nat 3).1.new_reader).2).try_read
        ((MpmcCircularBuffer.new Nat 3).1.new_reader).1).map (fun t => t.1)
      = some TryRead.Pending
  ∧ (((MpmcCircularBuffer.new Nat 3).1.new_reader).1.try_write 7).1 = TryWrite.Ready
  ∧ ((((MpmcCircularBuffer.new Nat 3).1.new_reader).2).try_read
        (((MpmcCircularBuffer.new Nat 3).1.new_reader).1.try_write 7).2).map (fun t => t.1)
      = some (TryRead.Ready 7) := by
  have h2 := claim_C6_late_join_amended.2.1 Nat (MpmcCircularBuffer.new Nat 3).1 (by decide)
  have h3 := claim_C6_late_join_amended.2.2 Nat (MpmcCircularBuffer.new Nat 3).1 7
    (by decide) (by decide)
  exact ⟨h2, h3.1, h3.2⟩

/-!
Clone fidelity (claim C7).
-/

/-- One two-reader lockstep round from a PairInv state delivers the written
value to both readers and re-establishes PairInv one position further. -/
theorem pairInv_step {α : Type} (c k : Nat) (b : MpmcCircularBuffer α)
    (r1 r2 : BufferReader) (v : α) (h : PairInv c k b r1 r2) :
    (pairRound b r1 r2 v).elim False
      (fun t => t.1 = (v, v) ∧ PairInv c (k + 1) t.2.1 t.2.2.1 t.2.2.2) := by
  obtain ⟨hlen, hhead, htail, hlock, hval, hcnt, hidx1, hstate1, hidx2, hstate2⟩ := h
  have hN : 2 ≤ b.len := by rw [hlen]; exact le_max_left 2 c
  have hmod : ((k + 1) % b.len = k % b.len) = False := by
    simpa using succ_mod_ne (k := k) hN
  have hmod' : (k % b.len = (k + 1) % b.len) = False := by
    simp only [eq_iff_iff, iff_false]
    intro he
    exact succ_mod_ne (k := k) hN he.symm
  have hkk : (k + 1 ≤ k) = False := by simp
  rcases hstate1 with hs1 | hs1 <;> rcases hstate2 with hs2 | hs2
  all_goals
    simp [pairRound, MpmcCircularBuffer.try_write, BufferReader.try_read,
      BufferReader.try_read_at, BufferReader.advance, BufferReader.release,
      MpmcCircularBuffer.get_slot, MpmcCircularBuffer.set_slot, Slot.try_write,
      Slot.try_read, Slot.acquire_next, Slot.acquire, Slot.subscribe_write,
      Slot.decrement, Slot.release, hval, hcnt, hidx1, hidx2, hhead, htail, hlock,
      hs1, hs2, hmod, hmod', hkk, PairInv, ← hlen, Option.elim]
  all_goals
    refine ⟨fun j => ?_, fun j => ?_⟩ <;> split_ifs <;> simp_all

/-- Iterated lockstep rounds from a PairInv state deliver the written list
to both readers. -/
theorem runPairRounds_inv {α : Type} (c : Nat) (vs : List α) :
    ∀ (k : Nat) (b : MpmcCircularBuffer α) (r1 r2 : BufferReader), PairInv c k b r1 r2 →
      (runPairRounds b r1 r2 vs).elim False
        (fun t => t.1 = (vs, vs) ∧ PairInv c (k + vs.length) t.2.1 t.2.2.1 t.2.2.2) := by
  induction vs with
  | nil =>
      intro k b r1 r2 h
      simpa [runPairRounds, Option.elim] using h
  | cons v vs ih =>
      intro k b r1 r2 h
      have h1 := pairInv_step c k b r1 r2 v h
      cases hw : pairRound b r1 r2 v with
      | none => rw [hw] at h1; simp [Option.elim] at h1
      | some t =>
          rw [hw] at h1
          simp only [Option.elim] at h1
          obtain ⟨x, b1, s1, s2⟩ := t
          obtain ⟨hx, hinv⟩ := h1
          have h2 := ih (k + 1) b1 s1 s2 hinv
          cases hr : runPairRounds b1 s1 s2 vs with
          | none => rw [hr] at h2; simp [Option.elim] at h2
          | some u =>
              rw [hr] at h2
              simp only [Option.elim] at h2
              obtain ⟨ys, b2, u1, u2⟩ := u
              obtain ⟨hys, hinv2⟩ := h2
              dsimp only at hx hinv hys hinv2
              simp only [runPairRounds, hw, hr, Option.elim]
              have hxx : x = (v, v) := hx
              have hyy : ys = (vs, vs) := hys
              refine ⟨by simp [hxx, hyy], ?_⟩
              have : k + 1 + vs.length = k + (vs.length + 1) := by omega
              simpa [List.length_cons, this] using hinv2

/-- Cloning the single reader of a RoundInv state yields a PairInv state at
the same position: both cursors now hold a reservation on the same slot. -/
theorem clone_pairInv {α : Type} (c k : Nat) (b : MpmcCircularBuffer α) (r : BufferReader)
    (h : RoundInv c k b r) :
    PairInv c k (r.clone b).1 r (r.clone b).2 := by
  obtain ⟨hlen, hhead, htail, hlock, hval, hcnt, hidx, hstate⟩ := h
  refine ⟨hlen, hhead, htail, hlock, fun j => ?_, fun j => ?_, hidx, hstate, hidx, hstate⟩ <;>
    simp [BufferReader.clone, MpmcCircularBuffer.get_slot, MpmcCircularBuffer.set_slot,
      Slot.acquire, hidx, hval, hcnt] <;>
    split_ifs <;> simp_all

/-- After any prefix of single-reader rounds, cloning and then running any
list of lockstep rounds delivers the identical sequence to the original
and to the clone. -/
theorem cloneFidelityRun_eq (c : Nat) (vs1 vs2 : List Nat) :
    cloneFidelityRun c vs1 vs2 = some (vs2, vs2) := by
  have h1 := runRounds_inv c vs1 0 (MpmcCircularBuffer.new Nat c).1
    (MpmcCircularBuffer.new Nat c).2 (roundInv_init c)
  cases hr : runRounds (MpmcCircularBuffer.new Nat c).1 (MpmcCircularBuffer.new Nat c).2 vs1 with
  | none => rw [hr] at h1; simp [Option.elim] at h1
  | some t =>
      rw [hr] at h1
      simp only [Option.elim] at h1
      obtain ⟨xs, b1, r1⟩ := t
      obtain ⟨hxs, hinv⟩ := h1
      dsimp only at hxs hinv
      have h2 := runPairRounds_inv c vs2 (0 + vs1.length) (r1.clone b1).1 r1 (r1.clone b1).2
        (clone_pairInv c _ b1 r1 hinv)
      cases hp : runPairRounds (r1.clone b1).1 r1 (r1.clone b1).2 vs2 with
      | none => rw [hp] at h2; simp [Option.elim] at h2
      | some u =>
          rw [hp] at h2
          simp only [Option.elim] at h2
          obtain ⟨ys, b2, u1, u2⟩ := u
          obtain ⟨hys, hinv2⟩ := h2
          dsimp only at hys hinv2
          simp [cloneFidelityRun, hr, hp, hys]

/-- C7.  Clone fidelity: clone snapshots the index (the recheck collapses
sequentially) and returns an independent cursor at the same position
inheriting the parent state, with one extra reservation on that slot and
everything else untouched; after any prefix of rounds, running original
and clone in lockstep delivers the identical value sequence to both, each
exactly once, for every capacity and every value list; and in the
concrete capacity-4 staggered schedule (original drains all three values
while the clone is stalled, then the clone catches up) both observe
exactly 1, 2, 3. -/
theorem claim_C7_clone_fidelity :
    (∀ (α : Type) (r : BufferReader) (b : MpmcCircularBuffer α),
        (r.clone b).2 = BufferReader.mk r.index r.state
      ∧ (r.clone b).1.head = b.head
      ∧ (r.clone b).1.tail = b.tail
      ∧ (r.clone b).1.head_lock = b.head_lock
      ∧ (r.clone b).1.len = b.len
      ∧ ((r.clone b).1.get_slot r.index).refCount = (b.get_slot r.index).refCount + 1
      ∧ ((r.clone b).1.get_slot r.index).value = (b.get_slot r.index).value
      ∧ ∀ j, j ≠ r.index % b.len → (r.clone b).1.slots j = b.slots j)
  ∧ (∀ (c : Nat) (vs1 vs2 : List Nat), cloneFidelityRun c vs1 vs2 = some (vs2, vs2))
  ∧ staggeredCloneRun = some ([1, 2, 3], [1, 2, 3]) := by
  refine ⟨?_, cloneFidelityRun_eq, by decide⟩
  intro α r b
  refine ⟨rfl, rfl, rfl, rfl, rfl, ?_, ?_, fun j hj => ?_⟩
  · simp [BufferReader.clone, MpmcCircularBuffer.get_slot, MpmcCircularBuffer.set_slot,
      Slot.acquire]
  · simp [BufferReader.clone, MpmcCircularBuffer.get_slot, MpmcCircularBuffer.set_slot,
      Slot.acquire]
  · simp [BufferReader.clone, MpmcCircularBuffer.set_slot, hj]

/-!
Construction (claim C8).
-/

/-- C8.  Construction: for every requested capacity c, new produces a
buffer with max 2 c slots, every slot initially Empty (no value) with
refcount 0 except slot 0 which carries the single pre-acquired reservation
of the returned initial reader, head = tail = 0, the admission lock free,
and exactly one reader cursor at index 0 in the Reading state. -/
theorem claim_C8_construction :
    ∀ (α : Type) (c : Nat),
      (MpmcCircularBuffer.new α c).1.len = max 2 c
    ∧ (MpmcCircularBuffer.new α c).1.head = 0
    ∧ (MpmcCircularBuffer.new α c).1.tail = 0
    ∧ (MpmcCircularBuffer.new α c).1.head_lock = false
    ∧ (∀ j, ((MpmcCircularBuffer.new α c).1.slots j).value = none)
    ∧ (∀ j, ((MpmcCircularBuffer.new α c).1.slots j).refCount = if j = 0 then 1 else 0)
    ∧ ((MpmcCircularBuffer.new α c).1.get_slot 0).refCount = 1
    ∧ (MpmcCircularBuffer.new α c).2 = BufferReader.mk 0 ReaderState.Reading := by
  intro α c
  refine ⟨rfl, rfl, rfl, rfl, fun j => ?_, fun j => ?_, ?_, rfl⟩ <;>
    simp [MpmcCircularBuffer.new, MpmcCircularBuffer.get_slot,
      MpmcCircularBuffer.set_slot, Slot.acquire] <;>
    split_ifs <;> simp_all



theorem try_write_pending_fields {α : Type} (b : MpmcCircularBuffer α) (v w : α)
    (h : (b.get_slot b.head).value = some w) :
    (b.try_write v).2.head = b.head ∧ (b.try_write v).2.tail = b.tail
  ∧ (b.try_write v).2.len = b.len ∧ (b.try_write v).2.slots = b.slots := by
  simp [MpmcCircularBuffer.try_write, MpmcCircularBuffer.get_slot, Slot.try_write] at h ⊢
  simp [h]

theorem try_write_head_mono {α : Type} (b : MpmcCircularBuffer α) (v : α) :
    b.head ≤ (b.try_write v).2.head := by
  cases hv : (b.get_slot b.head).value with
  | none => rw [try_write_ready_head b v hv]; omega
  | some w => rw [(try_write_pending_fields b v w hv).1]

theorem try_write_tail_eq {α : Type} (b : MpmcCircularBuffer α) (v : α) :
    (b.try_write v).2.tail = b.tail := by
  cases hv : (b.get_slot b.head).value with
  | none => exact try_write_ready_tail b v hv
  | some w => exact (try_write_pending_fields b v w hv).2.1

theorem try_write_len_eq {α : Type} (b : MpmcCircularBuffer α) (v : α) :
    (b.try_write v).2.len = b.len := by
  cases hv : (b.get_slot b.head).value with
  | none => exact try_write_ready_len b v hv
  | some w => exact (try_write_pending_fields b v w hv).2.2.1

theorem advance_some_fields {α : Type} (r r1 : BufferReader) (id : Nat)
    (b b1 : MpmcCircularBuffer α) (hsome : r.advance id b = some (b1, r1)) :
    b1.head = b.head ∧ b1.tail = b.tail ∧ b1.len = b.len
  ∧ (∀ j, (b1.slots j).value = (b.slots j).value) ∧ r1.index = id + 1 := by
  by_cases hh : b.head ≤ id + 1 <;>
    by_cases hc : r.index = id <;>
    simp [BufferReader.advance, MpmcCircularBuffer.get_slot, MpmcCircularBuffer.set_slot,
      Slot.acquire, Slot.acquire_next, Slot.subscribe_write, hh, hc] at hsome
  · obtain ⟨hb, hr⟩ := hsome
    subst hb
    subst hr
    refine ⟨rfl, rfl, rfl, fun j => ?_, rfl⟩
    simp [MpmcCircularBuffer.set_slot, Slot.acquire_next, Slot.subscribe_write,
      MpmcCircularBuffer.get_slot]
    split_ifs <;> simp_all
  · obtain ⟨hb, hr⟩ := hsome
    subst hb
    subst hr
    refine ⟨rfl, rfl, rfl, fun j => ?_, rfl⟩
    simp [MpmcCircularBuffer.set_slot, Slot.acquire, MpmcCircularBuffer.get_slot]
    split_ifs <;> simp_all



theorem release_some_fields {α : Type} (r : BufferReader) (id : Nat)
    (b b' : MpmcCircularBuffer α) (hsome : r.release id b = some b') :
    b'.head = b.head ∧ b'.len = b.len
  ∧ (∀ j, ((b'.slots j).value).isSome → ((b.slots j).value).isSome)
  ∧ (b'.tail = b.tail ∨
      (id = b.tail ∧ b'.tail = b.tail + 1
        ∧ ((b.slots (b.tail % b.len)).value).isSome
        ∧ (b'.slots (b.tail % b.len)).value = none)) := by
  rw [release_eq_spec] at hsome
  by_cases h1 : (b.get_slot id).refCount - 1 = 0
  · by_cases h2 : id = b.tail
    · subst h2
      cases hv : (b.get_slot b.tail).value with
      | none =>
          have hx : releaseSpec b.tail b = none := by
            simp [releaseSpec, h1, hv]
          rw [hx] at hsome
          exact absurd hsome (by simp)
      | some w =>
          have hx : releaseSpec b.tail b = some
              { b.set_slot b.tail
                  { value := none, refCount := (b.get_slot b.tail).refCount - 1,
                    subscribed := (b.get_slot b.tail).subscribed } with tail := b.tail + 1 } := by
            simp [releaseSpec, h1, hv]
          rw [hx] at hsome
          simp only [Option.some.injEq] at hsome
          subst hsome
          refine ⟨rfl, rfl, fun j hj => ?_, Or.inr ⟨rfl, rfl, ?_, ?_⟩⟩
          · simp [MpmcCircularBuffer.set_slot] at hj
            by_cases hjj : j = b.tail % b.len
            · simp [hjj] at hj
            · simpa [hjj] using hj
          · simp [MpmcCircularBuffer.get_slot] at hv
            simp [hv]
          · simp [MpmcCircularBuffer.set_slot]
    · have hx : releaseSpec id b = some (b.set_slot id
          { value := (b.get_slot id).value, refCount := (b.get_slot id).refCount - 1,
            subscribed := (b.get_slot id).subscribed }) := by
        simp [releaseSpec, h1, h2]
      rw [hx] at hsome
      simp only [Option.some.injEq] at hsome
      subst hsome
      refine ⟨rfl, rfl, fun j hj => ?_, Or.inl rfl⟩
      simp [MpmcCircularBuffer.set_slot] at hj
      by_cases hjj : j = id % b.len
      · simp [hjj] at hj
        simpa [MpmcCircularBuffer.get_slot, hjj] using hj
      · simpa [hjj] using hj
  · have hx : releaseSpec id b = some (b.set_slot id
        { value := (b.get_slot id).value, refCount := (b.get_slot id).refCount - 1,
          subscribed := (b.get_slot id).subscribed }) := by
      simp [releaseSpec, h1]
    rw [hx] at hsome
    simp only [Option.some.injEq] at hsome
    subst hsome
    refine ⟨rfl, rfl, fun j hj => ?_, Or.inl rfl⟩
    simp [MpmcCircularBuffer.set_slot] at hj
    by_cases hjj : j = id % b.len
    · simp [hjj] at hj
      simpa [MpmcCircularBuffer.get_slot, hjj] using hj
    · simpa [hjj] using hj



theorem bufInv_of_fields {α : Type} (b b' : MpmcCircularBuffer α)
    (hh : b'.head = b.head) (ht : b'.tail = b.tail) (hl : b'.len = b.len)
    (hv : ∀ j, (b'.slots j).value = (b.slots j).value) (h : BufInv b) : BufInv b' := by
  obtain ⟨h1, h2⟩ := h
  refine ⟨by omega, fun j hj => ?_⟩
  rw [hv j] at hj
  obtain ⟨k, hk1, hk2, hk3⟩ := h2 j hj
  exact ⟨k, by omega, by omega, by rw [hl]; exact hk3⟩

theorem bufInv_try_write {α : Type} (b : MpmcCircularBuffer α) (v : α) (h : BufInv b) :
    BufInv (b.try_write v).2 := by
  obtain ⟨h1, h2⟩ := h
  cases hv : (b.get_slot b.head).value with
  | some w =>
      obtain ⟨hh, ht, hl, hs⟩ := try_write_pending_fields b v w hv
      exact bufInv_of_fields b _ hh ht hl (fun j => by rw [hs]) ⟨h1, h2⟩
  | none =>
      refine ⟨by rw [try_write_ready_head b v hv, try_write_ready_tail b v hv]; omega,
        fun j hj => ?_⟩
      rw [try_write_ready_head b v hv, try_write_ready_tail b v hv,
        try_write_ready_len b v hv]
      rw [try_write_ready_slots b v hv j] at hj
      by_cases hjj : j = b.head % b.len
      · exact ⟨b.head, h1, by omega, by rw [hjj]⟩
      · rw [if_neg hjj] at hj
        obtain ⟨k, hk1, hk2, hk3⟩ := h2 j hj
        exact ⟨k, hk1, by omega, hk3⟩

theorem bufInv_release {α : Type} (r : BufferReader) (id : Nat)
    (b b' : MpmcCircularBuffer α) (hsome : r.release id b = some b') (h : BufInv b) :
    BufInv b' := by
  obtain ⟨hh, hl, hmono, hcase⟩ := release_some_fields r id b b' hsome
  obtain ⟨h1, h2⟩ := h
  rcases hcase with ht | ⟨hid, ht, hfill, hempty⟩
  · refine ⟨by omega, fun j hj => ?_⟩
    obtain ⟨k, hk1, hk2, hk3⟩ := h2 j (hmono j hj)
    exact ⟨k, by omega, by omega, by rw [hl]; exact hk3⟩
  · obtain ⟨k0, hk01, hk02, hk03⟩ := h2 (b.tail % b.len) hfill
    have htlt : b.tail < b.head := by omega
    refine ⟨by omega, fun j hj => ?_⟩
    obtain ⟨k, hk1, hk2, hk3⟩ := h2 j (hmono j hj)
    refine ⟨k, ?_, by omega, by rw [hl]; exact hk3⟩
    rcases Nat.eq_or_lt_of_le hk1 with he | hlt
    · exfalso
      have : j = b.tail % b.len := by rw [← hk3, ← he]
      rw [this] at hj
      rw [hempty] at hj
      simp at hj
    · omega

theorem bufInv_advance {α : Type} (r r1 : BufferReader) (id : Nat)
    (b b1 : MpmcCircularBuffer α) (hsome : r.advance id b = some (b1, r1))
    (h : BufInv b) : BufInv b1 := by
  obtain ⟨hh, ht, hl, hv, _⟩ := advance_some_fields r r1 id b b1 hsome
  exact bufInv_of_fields b b1 hh ht hl hv h



theorem try_read_at_some_main {α : Type} (r r' : BufferReader) (res : TryRead α)
    (b b' : MpmcCircularBuffer α) (hsome : r.try_read_at b = some (res, b', r')) :
    b'.head = b.head ∧ b'.len = b.len ∧ b.tail ≤ b'.tail ∧ r.index ≤ r'.index
  ∧ (BufInv b → BufInv b') := by
  unfold BufferReader.try_read_at at hsome
  dsimp only at hsome
  cases hslot : (b.get_slot r.index).try_read with
  | NotLocked => rw [hslot] at hsome; simp at hsome
  | Pending =>
      rw [hslot] at hsome
      simp only [Option.some.injEq, Prod.mk.injEq] at hsome
      obtain ⟨hres, hb, hr⟩ := hsome
      subst hb
      subst hr
      exact ⟨rfl, rfl, le_refl _, le_refl _, fun h => h⟩
  | Read v =>
      rw [hslot] at hsome
      cases hadv : r.advance r.index b with
      | none => rw [hadv] at hsome; simp at hsome
      | some t =>
          obtain ⟨b1, r1⟩ := t
          rw [hadv] at hsome
          cases hrel : r1.release r.index b1 with
          | none => simp [hrel] at hsome
          | some b2 =>
              simp only [hrel, Option.some.injEq, Prod.mk.injEq] at hsome
              obtain ⟨hres, hb, hr⟩ := hsome
              obtain ⟨ah, at', al, av, ai⟩ := advance_some_fields r r1 r.index b b1 hadv
              obtain ⟨rh, rl, rmono, rcase⟩ := release_some_fields r1 r.index b1 b2 hrel
              refine ⟨?_, ?_, ?_, ?_, fun h => ?_⟩
              · rw [← hb, rh, ah]
              · rw [← hb, rl, al]
              · rw [← hb]
                rcases rcase with ht | ⟨_, ht, _, _⟩ <;> omega
              · rw [← hr]
                omega
              · rw [← hb]
                exact bufInv_release r1 r.index b1 b2 hrel
                  (bufInv_advance r r1 r.index b b1 hadv h)

theorem try_read_some_main {α : Type} (r r' : BufferReader) (res : TryRead α)
    (b b' : MpmcCircularBuffer α) (hsome : r.try_read b = some (res, b', r')) :
    b'.head = b.head ∧ b'.len = b.len ∧ b.tail ≤ b'.tail ∧ r.index ≤ r'.index
  ∧ (BufInv b → BufInv b') := by
  unfold BufferReader.try_read at hsome
  dsimp only at hsome
  cases hst : r.state with
  | Reading =>
      rw [hst] at hsome
      dsimp only at hsome
      exact try_read_at_some_main r r' res b b' hsome
  | Blocked =>
      rw [hst] at hsome
      dsimp only at hsome
      by_cases hh : b.head ≤ r.index
      · rw [if_pos hh] at hsome
        simp only [Option.some.injEq, Prod.mk.injEq] at hsome
        obtain ⟨hres, hb, hr⟩ := hsome
        subst hb
        subst hr
        refine ⟨rfl, rfl, le_refl _, le_refl _, fun h => ?_⟩
        refine bufInv_of_fields b _ rfl rfl rfl (fun j => ?_) h
        simp [MpmcCircularBuffer.set_slot, Slot.subscribe_write,
          MpmcCircularBuffer.get_slot]
        split_ifs <;> simp_all
      · rw [if_neg hh] at hsome
        exact try_read_at_some_main ⟨r.index, ReaderState.Reading⟩ r' res b b' hsome



theorem bufInv_new_reader {α : Type} (b : MpmcCircularBuffer α) (h : BufInv b) :
    BufInv (b.new_reader).1 := by
  refine bufInv_of_fields b _ rfl rfl rfl (fun j => ?_) h
  simp [MpmcCircularBuffer.new_reader, MpmcCircularBuffer.set_slot, Slot.acquire,
    MpmcCircularBuffer.get_slot]
  split_ifs <;> simp_all

theorem bufInv_clone {α : Type} (r : BufferReader) (b : MpmcCircularBuffer α)
    (h : BufInv b) : BufInv (r.clone b).1 := by
  refine bufInv_of_fields b _ rfl rfl rfl (fun j => ?_) h
  simp [BufferReader.clone, MpmcCircularBuffer.set_slot, Slot.acquire,
    MpmcCircularBuffer.get_slot]
  split_ifs <;> simp_all

theorem drop_some_fields {α : Type} (r : BufferReader) (b b' : MpmcCircularBuffer α)
    (hsome : r.drop b = some b') (h : BufInv b) :
    BufInv b' ∧ b'.head = b.head ∧ b.tail ≤ b'.tail := by
  unfold BufferReader.drop at hsome
  cases hst : r.state with
  | Blocked =>
      rw [hst] at hsome
      dsimp only at hsome
      simp only [Option.some.injEq] at hsome
      refine ⟨?_, by rw [← hsome]; simp, by rw [← hsome]; simp⟩
      rw [← hsome]
      refine bufInv_of_fields b _ rfl rfl rfl (fun j => ?_) h
      simp [MpmcCircularBuffer.set_slot, Slot.decrement_next, MpmcCircularBuffer.get_slot]
      split_ifs <;> simp_all
  | Reading =>
      rw [hst] at hsome
      dsimp only at hsome
      obtain ⟨rh, _, _, rcase⟩ := release_some_fields r r.index b b' hsome
      refine ⟨bufInv_release r r.index b b' hsome h, rh, ?_⟩
      rcases rcase with ht | ⟨_, ht, _, _⟩ <;> omega

theorem bufInv_init {α : Type} (c : Nat) : BufInv (World.init α c).buf := by
  obtain ⟨hlen, hh, ht, hlock, hval, hcnt, hidx, hstate⟩ := roundInv_init (α := α) c
  have h0 : (World.init α c).buf = (MpmcCircularBuffer.new α c).1 := rfl
  refine ⟨?_, fun j hj => ?_⟩
  · rw [h0, ht, hh]
  · rw [h0, hval j] at hj
    simp at hj

theorem step_bufInv {α : Type} (w w' : World α) (hs : Step w w') (h : BufInv w.buf) :
    BufInv w'.buf := by
  cases hs with
  | write v => exact bufInv_try_write w.buf v h
  | read wq i hr =>
      unfold World.read at hr
      cases hro : w.readers[i]? with
      | none => rw [hro] at hr; simp at hr
      | some o =>
          cases o with
          | none => rw [hro] at hr; simp at hr
          | some r0 =>
              rw [hro] at hr
              dsimp only at hr
              cases htr : r0.try_read w.buf with
              | none => rw [htr] at hr; simp at hr
              | some t =>
                  obtain ⟨res, b1, r1⟩ := t
                  rw [htr] at hr
                  simp only [Option.some.injEq] at hr
                  rw [← hr]
                  exact (try_read_some_main r0 r1 res w.buf b1 htr).2.2.2.2 h
  | newReader => exact bufInv_new_reader w.buf h
  | clone wq i hr =>
      unfold World.cloneReader at hr
      cases hro : w.readers[i]? with
      | none => rw [hro] at hr; simp at hr
      | some o =>
          cases o with
          | none => rw [hro] at hr; simp at hr
          | some r0 =>
              rw [hro] at hr
              dsimp only at hr
              simp only [Option.some.injEq] at hr
              rw [← hr]
              exact bufInv_clone r0 w.buf h
  | drop wq i hr =>
      unfold World.dropReader at hr
      cases hro : w.readers[i]? with
      | none => rw [hro] at hr; simp at hr
      | some o =>
          cases o with
          | none => rw [hro] at hr; simp at hr
          | some r0 =>
              rw [hro] at hr
              dsimp only at hr
              cases hd : r0.drop w.buf with
              | none => rw [hd] at hr; simp at hr
              | some b1 =>
                  rw [hd] at hr
                  simp only [Option.some.injEq] at hr
                  rw [← hr]
                  exact (drop_some_fields r0 w.buf b1 hd h).1

theorem reachable_bufInv {α : Type} (c : Nat) (w : World α) (h : Reachable c w) :
    BufInv w.buf := by
  induction h with
  | refl => exact bufInv_init c
  | tail hsteps hstep ih => exact step_bufInv _ _ hstep ih



theorem step_mono {α : Type} (w w' : World α) (hs : Step w w') :
    w.buf.head ≤ w'.buf.head ∧ w.buf.tail ≤ w'.buf.tail
  ∧ ∀ (i : Nat) (r r' : BufferReader),
      w.readers[i]? = some (some r) → w'.readers[i]? = some (some r') →
        r.index ≤ r'.index := by
  cases hs with
  | write v =>
      refine ⟨try_write_head_mono w.buf v, le_of_eq (try_write_tail_eq w.buf v).symm,
        fun i r r' h1 h2 => ?_⟩
      have : (w.write v).readers = w.readers := rfl
      rw [this] at h2
      rw [h1] at h2
      simp at h2
      rw [h2]
  | read wq i hr =>
      unfold World.read at hr
      cases hro : w.readers[i]? with
      | none => rw [hro] at hr; simp at hr
      | some o =>
          cases o with
          | none => rw [hro] at hr; simp at hr
          | some r0 =>
              rw [hro] at hr
              dsimp only at hr
              cases htr : r0.try_read w.buf with
              | none => rw [htr] at hr; simp at hr
              | some t =>
                  obtain ⟨res, b1, r1⟩ := t
                  rw [htr] at hr
                  simp only [Option.some.injEq] at hr
                  obtain ⟨mh, ml, mt, mi, _⟩ := try_read_some_main r0 r1 res w.buf b1 htr
                  refine ⟨by rw [← hr]; exact le_of_eq mh.symm,
                    by rw [← hr]; exact mt, fun i' r r' h1 h2 => ?_⟩
                  rw [← hr] at h2
                  dsimp only at h2
                  by_cases hii : i = i'
                  · subst hii
                    rw [List.getElem?_set_self', h1] at h2
                    simp at h2
                    rw [h1] at hro
                    simp at hro
                    rw [← h2, hro]
                    exact mi
                  · rw [List.getElem?_set_ne (by omega)] at h2
                    rw [h1] at h2
                    simp at h2
                    rw [h2]
  | newReader =>
      refine ⟨le_refl _, le_refl _, fun i r r' h1 h2 => ?_⟩
      have h3 : (w.newReader).readers = w.readers ++ [some (w.buf.new_reader).2] := rfl
      rw [h3] at h2
      have hlt : i < w.readers.length := (List.getElem?_eq_some.mp h1).1
      rw [show (w.readers ++ [some (w.buf.new_reader).2])[i]? = w.readers[i]? by
        simp [List.getElem?_append, hlt]] at h2
      rw [h1] at h2
      simp at h2
      rw [h2]
  | clone wq i hr =>
      unfold World.cloneReader at hr
      cases hro : w.readers[i]? with
      | none => rw [hro] at hr; simp at hr
      | some o =>
          cases o with
          | none => rw [hro] at hr; simp at hr
          | some r0 =>
              rw [hro] at hr
              dsimp only at hr
              simp only [Option.some.injEq] at hr
              refine ⟨by rw [← hr]; exact le_refl _, by rw [← hr]; exact le_refl _,
                fun i' r r' h1 h2 => ?_⟩
              rw [← hr] at h2
              dsimp only at h2
              have hlt : i' < w.readers.length := (List.getElem?_eq_some.mp h1).1
              rw [show (w.readers ++ [some (r0.clone w.buf).2])[i']? = w.readers[i']? by
                simp [List.getElem?_append, hlt]] at h2
              rw [h1] at h2
              simp at h2
              rw [h2]
  | drop wq i hr =>
      unfold World.dropReader at hr
      cases hro : w.readers[i]? with
      | none => rw [hro] at hr; simp at hr
      | some o =>
          cases o with
          | none => rw [hro] at hr; simp at hr
          | some r0 =>
              rw [hro] at hr
              dsimp only at hr
              cases hd : r0.drop w.buf with
              | none => rw [hd] at hr; simp at hr
              | some b1 =>
                  rw [hd] at hr
                  simp only [Option.some.injEq] at hr
                  have hBI : True := trivial
                  refine ⟨?_, ?_, fun i' r r' h1 h2 => ?_⟩
                  · rw [← hr]
                    dsimp only
                    cases hst : r0.state with
                    | Blocked =>
                        unfold BufferReader.drop at hd
                        rw [hst] at hd
                        dsimp only at hd
                        simp only [Option.some.injEq] at hd
                        rw [← hd]
                        simp
                    | Reading =>
                        unfold BufferReader.drop at hd
                        rw [hst] at hd
                        dsimp only at hd
                        exact le_of_eq (release_some_fields r0 r0.index w.buf b1 hd).1.symm
                  · rw [← hr]
                    dsimp only
                    cases hst : r0.state with
                    | Blocked =>
                        unfold BufferReader.drop at hd
                        rw [hst] at hd
                        dsimp only at hd
                        simp only [Option.some.injEq] at hd
                        rw [← hd]
                        simp
                    | Reading =>
                        unfold BufferReader.drop at hd
                        rw [hst] at hd
                        dsimp only at hd
                        obtain ⟨_, _, _, rcase⟩ := release_some_fields r0 r0.index w.buf b1 hd
                        rcases rcase with ht | ⟨_, ht, _, _⟩ <;> omega
                  · rw [← hr] at h2
                    dsimp only at h2
                    by_cases hii : i = i'
                    · subst hii
                      rw [List.getElem?_set_self', h1] at h2
                      simp at h2
                    · rw [List.getElem?_set_ne (by omega)] at h2
                      rw [h1] at h2
                      simp at h2
                      rw [h2]




/-- C9.  Global cursor invariant: in every state reachable from new by any
sequence of try_write, try_read, new_reader, clone and drop operations,
tail is at most head; across every single operation head, tail and the
logical index of every surviving cursor are non-decreasing (logical
indices never wrap); and physical addressing is logical index modulo
capacity. -/
theorem claim_C9_cursor_invariant :
    (∀ (α : Type) (c : Nat) (w : World α), Reachable c w → w.buf.tail ≤ w.buf.head)
  ∧ (∀ (α : Type) (w w' : World α), Step w w' →
        w.buf.head ≤ w'.buf.head ∧ w.buf.tail ≤ w'.buf.tail
      ∧ ∀ (i : Nat) (r r' : BufferReader),
          w.readers[i]? = some (some r) → w'.readers[i]? = some (some r') →
            r.index ≤ r'.index)
  ∧ (∀ (α : Type) (b : MpmcCircularBuffer α) (id : Nat),
        b.get_slot id = b.slots (id % b.len)) :=
  ⟨fun _ c w h => (reachable_bufInv c w h).1,
   fun _ w w' hs => step_mono w w' hs,
   fun _ _ _ => rfl⟩

/-- Witness for C9: the fresh capacity-2 world is reachable and satisfies
tail at most head, and a write step keeps head non-decreasing. -/
theorem claim_C9_cursor_invariant_witness :
    (World.init Nat 2).buf.tail ≤ (World.init Nat 2).buf.head
  ∧ (World.init Nat 2).buf.head ≤ ((World.init Nat 2).write 7).buf.head :=
  ⟨claim_C9_cursor_invariant.1 Nat 2 (World.init Nat 2) Relation.ReflTransGen.refl,
   (claim_C9_cursor_invariant.2.1 Nat (World.init Nat 2) ((World.init Nat 2).write 7)
      (Step.write (World.init Nat 2) 7)).1⟩

theorem drop_some_head {α : Type} (r : BufferReader) (b b' : MpmcCircularBuffer α)
    (hsome : r.drop b = some b') : b'.head = b.head := by
  unfold BufferReader.drop at hsome
  cases hst : r.state with
  | Blocked =>
      rw [hst] at hsome
      dsimp only at hsome
      simp only [Option.some.injEq] at hsome
      rw [← hsome]
      simp
  | Reading =>
      rw [hst] at hsome
      dsimp only at hsome
      exact (release_some_fields r r.index b b' hsome).1

/-- C10.  Frame effects: try_write modifies neither tail nor any reader
cursor; try_read, new_reader, clone and drop never modify head; and
new_reader and clone modify neither head nor tail nor any existing cursor
entry. -/
theorem claim_C10_frame_effects :
    (∀ (α : Type) (w : World α) (v : α),
        (w.write v).buf.tail = w.buf.tail ∧ (w.write v).readers = w.readers)
  ∧ (∀ (α : Type) (w w' : World α) (i : Nat), w.read i = some w' →
        w'.buf.head = w.buf.head)
  ∧ (∀ (α : Type) (w : World α),
        w.newReader.buf.head = w.buf.head ∧ w.newReader.buf.tail = w.buf.tail
      ∧ ∀ i, i < w.readers.length → w.newReader.readers[i]? = w.readers[i]?)
  ∧ (∀ (α : Type) (w w' : World α) (i : Nat), w.cloneReader i = some w' →
        w'.buf.head = w.buf.head ∧ w'.buf.tail = w.buf.tail
      ∧ ∀ i', i' < w.readers.length → w'.readers[i']? = w.readers[i']?)
  ∧ (∀ (α : Type) (w w' : World α) (i : Nat), w.dropReader i = some w' →
        w'.buf.head = w.buf.head
      ∧ ∀ i', i' ≠ i → w'.readers[i']? = w.readers[i']?) := by
  refine ⟨?_, ?_, ?_, ?_, ?_⟩
  · intro α w v
    exact ⟨try_write_tail_eq w.buf v, rfl⟩
  · intro α w w' i hr
    unfold World.read at hr
    cases hro : w.readers[i]? with
    | none => rw [hro] at hr; simp at hr
    | some o =>
        cases o with
        | none => rw [hro] at hr; simp at hr
        | some r0 =>
            rw [hro] at hr
            dsimp only at hr
            cases htr : r0.try_read w.buf with
            | none => rw [htr] at hr; simp at hr
            | some t =>
                obtain ⟨res, b1, r1⟩ := t
                rw [htr] at hr
                simp only [Option.some.injEq] at hr
                rw [← hr]
                exact (try_read_some_main r0 r1 res w.buf b1 htr).1
  · intro α w
    refine ⟨rfl, rfl, fun i hi => ?_⟩
    have h3 : (w.newReader).readers = w.readers ++ [some (w.buf.new_reader).2] := rfl
    rw [h3]
    simp [List.getElem?_append, hi]
  · intro α w w' i hr
    unfold World.cloneReader at hr
    cases hro : w.readers[i]? with
    | none => rw [hro] at hr; simp at hr
    | some o =>
        cases o with
        | none => rw [hro] at hr; simp at hr
        | some r0 =>
            rw [hro] at hr
            dsimp only at hr
            simp only [Option.some.injEq] at hr
            rw [← hr]
            refine ⟨rfl, rfl, fun i' hi => ?_⟩
            dsimp only
            simp [List.getElem?_append, hi]
  · intro α w w' i hr
    unfold World.dropReader at hr
    cases hro : w.readers[i]? with
    | none => rw [hro] at hr; simp at hr
    | some o =>
        cases o with
        | none => rw [hro] at hr; simp at hr
        | some r0 =>
            rw [hro] at hr
            dsimp only at hr
            cases hd : r0.drop w.buf with
            | none => rw [hd] at hr; simp at hr
            | some b1 =>
                rw [hd] at hr
                simp only [Option.some.injEq] at hr
                rw [← hr]
                refine ⟨drop_some_head r0 w.buf b1 hd, fun i' hi => ?_⟩
                dsimp only
                rw [List.getElem?_set_ne (by omega)]

/-- Witness for C10 at a concrete capacity-2 world holding one written
value: a write keeps tail and readers, and a read, a clone and a drop keep
head. -/
theorem claim_C10_frame_effects_witness :
    ((World.init Nat 2).write 5).buf.tail = (World.init Nat 2).buf.tail
  ∧ ((World.init Nat 2).write 5).readers = (World.init Nat 2).readers
  ∧ c10Read.buf.head = c10World.buf.head
  ∧ c10Clone.buf.head = c10World.buf.head
  ∧ c10Drop.buf.head = c10World.buf.head :=
  ⟨(claim_C10_frame_effects.1 Nat (World.init Nat 2) 5).1,
   (claim_C10_frame_effects.1 Nat (World.init Nat 2) 5).2,
   claim_C10_frame_effects.2.1 Nat c10World c10Read 0 rfl,
   (claim_C10_frame_effects.2.2.2.1 Nat c10World c10Clone 0 rfl).1,
   (claim_C10_frame_effects.2.2.2.2 Nat c10World c10Drop 0 rfl).1⟩


end Postage
